import Mathlib

/-!
# Verification of the YANFF flow-graph runtime against its specification

This file gives a shallow embedding of the packet-processing framework
(package `flow`, file src/unnamed/part_001, and the byte-swap helpers of
src/packet/packet.go) and proves, or refutes, the specified properties of

* the byte-order swap helpers (`SwapBytesUint16`, `SwapBytesUint32`),
* the clone threshold computed by `SystemInit` (`maxPacketsToClone`),
* the should-clone predicates (`generateCheck`, `handleCheck`,
  `separateCheck`, `splitCheck`),
* the overflow-shedding enqueue (`safeEnqueue`),
* the `partition` stage's Moore-machine behaviour,
* the `separate` stage's in-place burst partitioning,
* the clonable-replica event loop (`handle` / `separate` / `split` /
  `generatePerf` share it verbatim),
* the graph builder (`Set*` operations, `merge`, `checkFlow`,
  `checkSystem`) and its open-flow bookkeeping.

Machine integers are modelled as `Nat` with an explicit `% 2 ^ w`
wherever the Go code can actually wrap.
-/

namespace Packet

/-- The `SwapBytesUint16` from src/packet/packet.go:
`return x<<8 | x>>8` computed in `uint16` arithmetic; the left shift is
truncated to 16 bits, the right shift cannot overflow. -/
def SwapBytesUint16 (x : Nat) : Nat :=
  ((x <<< 8) % 2 ^ 16) ||| (x >>> 8)

/-- The `SwapBytesUint32` from src/packet/packet.go:
`((x & 0x000000ff) << 24) | ((x & 0x0000ff00) << 8) | ((x & 0x00ff0000) >> 8) | ((x & 0xff000000) >> 24)`
computed in `uint32` arithmetic; only the two left shifts can reach the
32-bit boundary, hence the `% 2 ^ 32` on those two terms. -/
def SwapBytesUint32 (x : Nat) : Nat :=
  (((x &&& 0x000000ff) <<< 24) % 2 ^ 32) ||| (((x &&& 0x0000ff00) <<< 8) % 2 ^ 32) |||
    ((x &&& 0x00ff0000) >>> 8) ||| ((x &&& 0xff000000) >>> 24)

end Packet

namespace Flow

/-- The clone threshold computed by `SystemInit`
(src/unnamed/part_001, line 387):
`maxPacketsToClone = uint32(sizeMultiplier * burstSize / 5 * 4)`.
Division is the truncating integer division of Go and is performed
*before* the multiplication by 4; the result is truncated to `uint32`. -/
def maxPacketsToClone (burstSizeV sizeMultiplierV : Nat) : Nat :=
  (sizeMultiplierV * burstSizeV / 5 * 4) % 2 ^ 32

/-- The `generateCheck` (src/unnamed/part_001, lines 679-685): the perf
generator wants another clone iff the observed packets-per-tick is below
the configured target speed. -/
def generateCheck (targetSpeed speedPKTS : Nat) : Bool :=
  if speedPKTS < targetSpeed then true else false

/-- The `handleCheck` (src/unnamed/part_001, lines 1037-1047): a handle stage
wants another clone iff its input ring occupancy exceeds
`maxPacketsToClone`. -/
def handleCheck (maxPacketsToCloneV queueCount : Nat) : Bool :=
  if queueCount > maxPacketsToCloneV then true else false

/-- The `separateCheck` (src/unnamed/part_001, lines 809-819): same predicate
as `handleCheck`, on the separate stage's input ring. -/
def separateCheck (maxPacketsToCloneV queueCount : Nat) : Bool :=
  if queueCount > maxPacketsToCloneV then true else false

/-- The `splitCheck` (src/unnamed/part_001, lines 959-969): same predicate as
`handleCheck`, on the split stage's input ring. -/
def splitCheck (maxPacketsToCloneV queueCount : Nat) : Bool :=
  if queueCount > maxPacketsToCloneV then true else false

/-- Modelled from the spec: the bounded SPSC ring (`low.Queue`), whose
implementation lives in the external cgo package `low` (not under src/).
Spec §4.1: fixed capacity, `enqueue_burst(src[], n) -> moved` moves up to
`n` handles and reports the count accepted (0 when full). Buffer handles
(`uintptr` mbuf pointers) are modelled as `Nat`. -/
structure Queue where
  cap : Nat
  buf : List Nat
  deriving DecidableEq, Repr

/-- Free slots left in the ring. -/
def Queue.freeSpace (q : Queue) : Nat := q.cap - q.buf.length

/-- Modelled from the spec: `low.Queue.EnqueueBurst(data, number)` moves
up to `number` handles from the front of `data` into the ring and returns
the count actually accepted (spec §4.1). -/
def Queue.enqueueBurst (q : Queue) (data : List Nat) (number : Nat) : Nat × Queue :=
  let done := min number q.freeSpace
  (done, ⟨q.cap, q.buf ++ data.take done⟩)

/-- Result of one `safeEnqueue` call: the producer's output ring, the
process-wide stop ring, the scheduler's `Dropped` counter, and the
handles freed synchronously by `low.DirectStop`. -/
structure SafeEnqueueResult where
  place : Queue
  stopRing : Queue
  dropped : Nat
  freed : List Nat
  deriving DecidableEq, Repr

/-- The `safeEnqueue` (src/unnamed/part_001, lines 1279-1295), the
overflow-shedding enqueue.  It tries the output ring, pushes the
remainder of the burst into the stop ring, adds the shortfall to the
scheduler's `Dropped` counter, and hands anything the stop ring refuses
to the synchronous `low.DirectStop` free.  It is a total function: no
branch waits or retries. -/
def safeEnqueue (place stopRing : Queue) (dropped : Nat) (data : List Nat)
    (number : Nat) : SafeEnqueueResult :=
  let r1 := place.enqueueBurst data number
  let done := r1.1
  if done < number then
    let dropped' := dropped + (number - done)
    let rest := (data.take number).drop done
    let r2 := stopRing.enqueueBurst rest (number - done)
    let done2 := r2.1
    if done2 < number - done then
      ⟨r1.2, r2.2, dropped', rest.drop done2⟩
    else
      ⟨r1.2, r2.2, dropped', []⟩
  else
    ⟨r1.2, stopRing, dropped, []⟩

/-- Read the first `c` cells of a burst array (the prefix that the stage
enqueues). -/
def extractArr {α : Type} (a : Nat → α) (c : Nat) : List α :=
  (List.range c).map a

/-- The per-packet body of the `partition` burst loop
(src/unnamed/part_001, lines 932-948).  Arguments mirror the Go locals:
`sw`, `cur` is `currentPacketNumber`, `i` the loop index, `cnt` is
`countOfPackets`, `aF`/`aS` are the `bufsFirst`/`bufsSecond` arrays. -/
structure PartLoopRes (α : Type) where
  sw : Bool
  cur : Nat
  i : Nat
  cnt : Nat
  aF : Nat → α
  aS : Nat → α

def partitionLoop {α : Type} (N M : Nat) :
    List α → Bool → Nat → Nat → Nat → (Nat → α) → (Nat → α) → PartLoopRes α
  | [], sw, cur, i, cnt, aF, aS => ⟨sw, cur, i, cnt, aF, aS⟩
  | x :: xs, sw, cur, i, cnt, aF, aS =>
    let cur' := cur + 1
    if sw then
      if cur' = N then
        partitionLoop N M xs false 0 (i + 1) (cnt + 1) (Function.update aF cnt x) aS
      else
        partitionLoop N M xs true cur' (i + 1) (cnt + 1) (Function.update aF cnt x) aS
    else
      if cur' = M then
        partitionLoop N M xs true 0 (i + 1) cnt aF (Function.update aS (i - cnt) x)
      else
        partitionLoop N M xs false cur' (i + 1) cnt aF (Function.update aS (i - cnt) x)

/-- One dequeued burst processed by `partition`: run the loop on the
burst, then enqueue the first `countOfPackets` cells of `bufsFirst` to
the first output and the remaining `n - countOfPackets` cells of
`bufsSecond` to the second output (lines 949-956).  Returns the two
enqueued lists and the persistent `(sw, currentPacketNumber)` state. -/
def partitionBurst {α : Type} [Inhabited α] (N M : Nat) (st : Bool × Nat)
    (burst : List α) : (List α × List α) × (Bool × Nat) :=
  let r := partitionLoop N M burst st.1 st.2 0 0 (fun _ => default) (fun _ => default)
  ((extractArr r.aF r.cnt, extractArr r.aS (burst.length - r.cnt)), (r.sw, r.cur))

/-- The `partition` stage fed a sequence of bursts: the
`(sw, currentPacketNumber)` state persists across burst boundaries
(the stage is unclonable for exactly this reason). -/
def partitionBursts {α : Type} [Inhabited α] (N M : Nat) :
    List (List α) → Bool × Nat → List α × List α
  | [], _ => ([], [])
  | b :: bs, st =>
    let r := partitionBurst N M st b
    let rest := partitionBursts N M bs r.2
    (r.1.1 ++ rest.1, r.1.2 ++ rest.2)

/-- Modelled from the spec (§4.8): the Partition Moore machine,
states FirstSide(k) and SecondSide(k). -/
inductive MooreState where
  | firstSide (k : Nat)
  | secondSide (k : Nat)
  deriving DecidableEq, Repr

/-- Modelled from the spec (§4.8): one packet advances the machine —
route by the current side, `k++`, and on `k = bound` flip the side and
reset `k = 0`.  The returned Bool is true when the packet goes to the
first output. -/
def mooreStep (N M : Nat) : MooreState → MooreState × Bool
  | .firstSide k => (if k + 1 = N then .secondSide 0 else .firstSide (k + 1), true)
  | .secondSide k => (if k + 1 = M then .firstSide 0 else .secondSide (k + 1), false)

/-- Modelled from the spec (§4.8): run the Partition Moore machine over a
packet sequence, collecting the two output subsequences. -/
def mooreRun {α : Type} (N M : Nat) : List α → MooreState → (List α × List α) × MooreState
  | [], s => (([], []), s)
  | x :: xs, s =>
    let st := mooreStep N M s
    let r := mooreRun N M xs st.1
    ((if st.2 then x :: r.1.1 else r.1.1, if st.2 then r.1.2 else x :: r.1.2), r.2)

/-- The source's `(sw, currentPacketNumber)` pair viewed as a Moore
machine state: `sw = true` is FirstSide. -/
def mooreOf : Bool → Nat → MooreState
  | true, cur => .firstSide cur
  | false, cur => .secondSide cur

/-- A Moore machine state viewed back as the source's
`(sw, currentPacketNumber)` pair. -/
def pairOfMoore : MooreState → Bool × Nat
  | .firstSide k => (true, k)
  | .secondSide k => (false, k)

/-- Packets at even positions of a sequence (0th, 2nd, ...). -/
def evens {α : Type} : List α → List α
  | [] => []
  | [x] => [x]
  | x :: _ :: xs => x :: evens xs

/-- Packets at odd positions of a sequence (1st, 3rd, ...). -/
def odds {α : Type} : List α → List α
  | [] => []
  | [_] => []
  | _ :: y :: xs => y :: odds xs

/-- The per-packet body of the `separate` burst loop
(src/unnamed/part_001, lines 864-897).  Each element is paired with the
boolean the callback returned for it (the scalar path calls
`separateFunction` per packet in order; the vector path reads the `ttt`
array filled by `vectorSeparateFunction` — the placement code is
identical).  `i` is the loop index, `cnt` is `countOfPackets`, `aT`/`aF`
are the `bufsTrue`/`bufsFalse` arrays. -/
structure SepLoopRes (α : Type) where
  i : Nat
  cnt : Nat
  aT : Nat → α
  aF : Nat → α

def separateLoop {α : Type} :
    List (α × Bool) → Nat → Nat → (Nat → α) → (Nat → α) → SepLoopRes α
  | [], i, cnt, aT, aF => ⟨i, cnt, aT, aF⟩
  | (x, t) :: ps, i, cnt, aT, aF =>
    if t = false then
      separateLoop ps (i + 1) (cnt + 1) aT (Function.update aF cnt x)
    else
      separateLoop ps (i + 1) cnt (Function.update aT (i - cnt) x) aF

/-- One dequeued burst processed by `separate`: run the loop, then the
stage safe-enqueues the first `countOfPackets` cells of `bufsFalse` to
the false output and the first `n - countOfPackets` cells of `bufsTrue`
to the true output (lines 898-904).  Returns (true-output, false-output). -/
def separateBurst {α : Type} [Inhabited α] (ps : List (α × Bool)) : List α × List α :=
  let r := separateLoop ps 0 0 (fun _ => default) (fun _ => default)
  (extractArr r.aT (ps.length - r.cnt), extractArr r.aF r.cnt)

/-- Events a clonable-stage replica reacts to, one per iteration of its
`select` loop (src/unnamed/part_001: `handle` lines 1065-1103, `separate`
lines 842-907, `split` lines 991-1034, `generatePerf` lines 720-748):
a value on the stop channel, the scheduler tick, or the default branch
which dequeues `n` packets. -/
inductive REvent where
  | stopSig (v : Int)
  | tick
  | work (n : Nat)
  deriving DecidableEq, Repr

/-- Observable actions of one replica loop iteration. -/
inductive RAction where
  | reported (speed : Nat)
  | slept (ns : Int)
  | processed (n : Nat)
  deriving DecidableEq, Repr

/-- Replica-local state: the idle-sleep `pause` value (Go `int`) and the
`currentSpeed` packet counter. -/
structure ReplicaState where
  pause : Int
  currentSpeed : Nat
  deriving DecidableEq, Repr

/-- Result of one replica loop iteration: either the goroutine returned
(clean termination) or it continues with a new state, having emitted the
listed actions. -/
inductive StepResult where
  | terminated
  | running (st : ReplicaState) (acts : List RAction)
  deriving DecidableEq, Repr

/-- One iteration of the clonable-replica loop, transcribed from `handle`
(src/unnamed/part_001, lines 1065-1103; `separate`, `split` and
`generatePerf` use the identical select skeleton):
stop value -1 returns from the goroutine; any other stop value becomes
the new `pause`; the tick publishes and resets `currentSpeed`; a work
iteration that dequeues zero packets sleeps `pause` nanoseconds when
`pause` is non-zero and just retries when it is zero. -/
def replicaStep (st : ReplicaState) : REvent → StepResult
  | .stopSig v =>
    if v = -1 then .terminated else .running ⟨v, st.currentSpeed⟩ []
  | .tick => .running ⟨st.pause, 0⟩ [.reported st.currentSpeed]
  | .work n =>
    if n = 0 then
      if st.pause ≠ 0 then .running st [.slept st.pause] else .running st []
    else
      .running ⟨st.pause, st.currentSpeed + n⟩ [.processed n]

/-- Run the replica loop over a sequence of events; `true` iff the
goroutine reached its `return` (terminated) within the sequence. -/
def replicaRun (st : ReplicaState) : List REvent → Bool
  | [] => false
  | e :: es =>
    match replicaStep st e with
    | .terminated => true
    | .running st' _ => replicaRun st' es

/-! ## Graph builder

Construction-time state of package `flow`: the `Flow` handles (each
holding a ring reference or nil once consumed), the `openFlowsNumber`
counter, the two stage lists of the scheduler (`schedState.UnClonable`,
`schedState.Clonable`), the `ringName` counter behind
`generateRingName`, and `createdPorts`.  `common.LogError` terminates
startup and `common.LogWarning` is logged and non-fatal (modelled from
the spec §7; package `common` is not under src/): errors are `Except.error`,
warnings a counter.  `openFlowsNumber` is a `uint32` in Go; reachable
states keep it equal to the number of open handles (proved below), so it
never underflows and plain `Nat` arithmetic is exact. -/

/-- Ring identifier: the name produced by `generateRingName`. -/
abbrev RingId := Nat

/-- The per-stage parameter records (`receiveParameters`,
`generateParameters`, `sendParameters`, `partitionParameters`,
`separateParameters`, `splitParameters`, `handleParameters`,
`writeParameters`, `readParameters` of src/unnamed/part_001), keeping the
ring references and the fields `merge` dispatches on. -/
inductive Params where
  | receiveP (port : Nat) (queue : Nat) (out : RingId)
  | generateP (out : RingId) (targetSpeed : Nat)
  | sendP (port : Nat) (queue : Nat) (inq : RingId)
  | partitionP (inq : RingId) (outFirst : RingId) (outSecond : RingId) (N : Nat) (M : Nat)
  | separateP (inq : RingId) (outTrue : RingId) (outFalse : RingId)
  | splitP (inq : RingId) (outs : List RingId)
  | handleP (inq : RingId) (out : RingId)
  | writeP (inq : RingId)
  | readP (out : RingId) (repcount : Int)
  deriving DecidableEq, Repr

/-- The rings a stage descriptor writes to. -/
def outputRings : Params → List RingId
  | .receiveP _ _ o => [o]
  | .generateP o _ => [o]
  | .sendP _ _ _ => []
  | .partitionP _ a b _ _ => [a, b]
  | .separateP _ a b => [a, b]
  | .splitP _ outs => outs
  | .handleP _ o => [o]
  | .writeP _ => []
  | .readP o _ => [o]

/-- A NIC port record (`type port`, src/unnamed/part_001, lines 263-270). -/
structure Port where
  rxQueues : List Bool
  txQueues : List Bool
  config : Nat
  rxQueuesNumber : Nat
  txQueuesNumber : Nat
  deriving DecidableEq, Repr

/-- Port mode `inactivePort`. -/
def inactivePort : Nat := 0
/-- Port mode `autoPort`. -/
def autoPort : Nat := 1
/-- Port mode `manualPort`. -/
def manualPort : Nat := 2

/-- Construction-time state of the builder (the package-level variables
of package `flow`). -/
structure BState where
  flows : List (Option RingId)
  openFlowsNumber : Nat
  unClonable : List Params
  clonable : List Params
  ringName : Nat
  warnings : Nat
  stopRing : RingId
  createdPorts : List Port
  deriving DecidableEq, Repr

/-- The construction errors `common.LogError` reports during graph
building (spec §7: deterministic, terminate startup). -/
inductive BuildError where
  | flowClosed
  | portRange
  | portModeConflict
  | noQueues
  | unusedRxQueue
  | openFlowsLeft
  deriving DecidableEq, Repr

/-- Builder state right after `SystemInit`: no flows, empty stage lists, the stop
ring created with the first generated ring name (1), `nports` DPDK ports
all inactive. -/
def initState (nports : Nat) : BState :=
  { flows := []
    openFlowsNumber := 0
    unClonable := []
    clonable := []
    ringName := 2
    warnings := 0
    stopRing := 1
    createdPorts := List.replicate nports ⟨[], [], inactivePort, 0, 0⟩ }

/-- The `checkFlow` (src/unnamed/part_001, lines 1297-1301): reports a
construction error when the Flow's ring reference is nil (the flow was
already consumed); otherwise yields the ring.  A handle that was never
created behaves like a closed one. -/
def checkFlow (s : BState) (f : Nat) : Except BuildError RingId :=
  match s.flows.get? f with
  | some (some r) => .ok r
  | _ => .error .flowClosed

/-- The `merge(from, to)` (src/unnamed/part_001, lines 756-807) on one
unclonable stage descriptor: the type switch rewrites the output rings of
`receiveParameters`, `partitionParameters` and `generateParameters`; all
other parameter kinds — including `readParameters` — fall through
unchanged. -/
def mergeUn (fromRing toRing : RingId) : Params → Params
  | .receiveP p q o => .receiveP p q (if o = fromRing then toRing else o)
  | .partitionP i a b N M =>
    .partitionP i (if a = fromRing then toRing else a)
      (if b = fromRing then toRing else b) N M
  | .generateP o t => .generateP (if o = fromRing then toRing else o) t
  | p => p

/-- The `merge(from, to)` on one clonable stage descriptor: the type switch
rewrites `splitParameters`, `separateParameters`, `handleParameters` and
`generateParameters`. -/
def mergeCl (fromRing toRing : RingId) : Params → Params
  | .splitP i outs => .splitP i (outs.map fun o => if o = fromRing then toRing else o)
  | .separateP i a b =>
    .separateP i (if a = fromRing then toRing else a)
      (if b = fromRing then toRing else b)
  | .handleP i o => .handleP i (if o = fromRing then toRing else o)
  | .generateP o t => .generateP (if o = fromRing then toRing else o) t
  | p => p

/-- The `merge(from, to)` (src/unnamed/part_001, lines 756-807): rewrite the
output rings of the already registered stage descriptors from `fromRing`
to `toRing`. -/
def merge (fromRing toRing : RingId) (s : BState) : BState :=
  { s with
    unClonable := s.unClonable.map (mergeUn fromRing toRing)
    clonable := s.clonable.map (mergeCl fromRing toRing) }

/-- The `SetReader` (lines 455-463): create a ring, register an unclonable
reader stage, return a new open flow. -/
def setReader (repcount : Int) (s : BState) : BState :=
  let ring := s.ringName
  { s with
    ringName := s.ringName + 1
    unClonable := s.unClonable ++ [.readP ring repcount]
    flows := s.flows ++ [some ring]
    openFlowsNumber := s.openFlowsNumber + 1 }

/-- The `SetReceiver` (lines 470-487): port range and mode checks, mark the
port auto, add an rx queue, create a ring, register an unclonable
receiver, return a new open flow. -/
def setReceiver (portN : Nat) (s : BState) : Except BuildError BState :=
  match s.createdPorts.get? portN with
  | none => .error .portRange
  | some p =>
    if p.config = manualPort then .error .portModeConflict
    else
      let ring := s.ringName
      let p' := { p with
        config := autoPort
        rxQueues := p.rxQueues ++ [true]
        rxQueuesNumber := p.rxQueuesNumber + 1 }
      .ok { s with
        createdPorts := s.createdPorts.set portN p'
        ringName := s.ringName + 1
        unClonable := s.unClonable ++ [.receiveP portN p.rxQueuesNumber ring]
        flows := s.flows ++ [some ring]
        openFlowsNumber := s.openFlowsNumber + 1 }

/-- The `SetGenerator` (lines 496-520): create a ring; a positive target
speed registers a clonable perf generator, zero an unclonable one-shot
generator; return a new open flow. -/
def setGenerator (targetSpeed : Nat) (s : BState) : BState :=
  let ring := s.ringName
  if targetSpeed > 0 then
    { s with
      ringName := s.ringName + 1
      clonable := s.clonable ++ [.generateP ring targetSpeed]
      flows := s.flows ++ [some ring]
      openFlowsNumber := s.openFlowsNumber + 1 }
  else
    { s with
      ringName := s.ringName + 1
      unClonable := s.unClonable ++ [.generateP ring targetSpeed]
      flows := s.flows ++ [some ring]
      openFlowsNumber := s.openFlowsNumber + 1 }

/-- The `SetWriter` (lines 442-448): consume the flow into an unclonable
writer stage. -/
def setWriter (f : Nat) (s : BState) : Except BuildError BState :=
  match checkFlow s f with
  | .error e => .error e
  | .ok r => .ok { s with
    unClonable := s.unClonable ++ [.writeP r]
    flows := s.flows.set f none
    openFlowsNumber := s.openFlowsNumber - 1 }

/-- The `SetSender` (lines 526-541): check the flow, port range and mode
checks, mark the port auto, add a tx queue, consume the flow into an
unclonable sender stage. -/
def setSender (f : Nat) (portN : Nat) (s : BState) : Except BuildError BState :=
  match checkFlow s f with
  | .error e => .error e
  | .ok r =>
  match s.createdPorts.get? portN with
  | none => .error .portRange
  | some p =>
    if p.config = manualPort then .error .portModeConflict
    else
      let p' := { p with
        config := autoPort
        txQueues := p.txQueues ++ [true]
        txQueuesNumber := p.txQueuesNumber + 1 }
      .ok { s with
        createdPorts := s.createdPorts.set portN p'
        unClonable := s.unClonable ++ [.sendP portN p.txQueuesNumber r]
        flows := s.flows.set f none
        openFlowsNumber := s.openFlowsNumber - 1 }

/-- The `SetPartitioner` (lines 548-565): check the flow; a zero `N` or `M`
only logs a warning (`common.LogWarning`) and construction proceeds; two
new rings, one more open flow, an unclonable partitioner; the input flow
is rebound to the first ring, the returned flow owns the second. -/
def setPartitioner (f : Nat) (N M : Nat) (s : BState) : Except BuildError BState :=
  match checkFlow s f with
  | .error e => .error e
  | .ok r =>
  let warnings' := if N = 0 ∨ M = 0 then s.warnings + 1 else s.warnings
  let ringFirst := s.ringName
  let ringSecond := s.ringName + 1
  .ok { s with
    warnings := warnings'
    ringName := s.ringName + 2
    openFlowsNumber := s.openFlowsNumber + 1
    unClonable := s.unClonable ++ [.partitionP r ringFirst ringSecond N M]
    flows := (s.flows.set f (some ringFirst)) ++ [some ringSecond] }

/-- The `SetSeparator` (lines 572-590): check the flow, two new rings, one
more open flow, a clonable separator; the input flow is rebound to the
true ring, the returned flow owns the false ring. -/
def setSeparator (f : Nat) (s : BState) : Except BuildError BState :=
  match checkFlow s f with
  | .error e => .error e
  | .ok r =>
  let ringTrue := s.ringName
  let ringFalse := s.ringName + 1
  .ok { s with
    ringName := s.ringName + 2
    openFlowsNumber := s.openFlowsNumber + 1
    clonable := s.clonable ++ [.separateP r ringTrue ringFalse]
    flows := (s.flows.set f (some ringTrue)) ++ [some ringFalse] }

/-- The flow/ring creation loop of `SetSplitter` (lines 602-607): one new
open flow and one new ring per output. -/
def splitterFlows (k : Nat) (s : BState) : List RingId × BState :=
  match k with
  | 0 => ([], s)
  | k + 1 =>
    let ring := s.ringName
    let s' := { s with
      ringName := s.ringName + 1
      flows := s.flows ++ [some ring]
      openFlowsNumber := s.openFlowsNumber + 1 }
    let r := splitterFlows k s'
    (ring :: r.1, r.2)

/-- The `SetSplitter` (lines 598-613): check the flow, create `flowNumber`
output flows and rings, register a clonable splitter, consume the input
flow. -/
def setSplitter (f : Nat) (flowNumber : Nat) (s : BState) : Except BuildError BState :=
  match checkFlow s f with
  | .error e => .error e
  | .ok r =>
  let made := splitterFlows flowNumber s
  let s' := made.2
  .ok { s' with
    clonable := s'.clonable ++ [.splitP r made.1]
    flows := s'.flows.set f none
    openFlowsNumber := s'.openFlowsNumber - 1 }

/-- The `SetStopper` (lines 618-623): check the flow, merge its ring into the
process-wide stop ring, consume the flow. -/
def setStopper (f : Nat) (s : BState) : Except BuildError BState :=
  match checkFlow s f with
  | .error e => .error e
  | .ok r =>
  let s' := merge r s.stopRing s
  .ok { s' with
    flows := s'.flows.set f none
    openFlowsNumber := s'.openFlowsNumber - 1 }

/-- The `SetHandler` (lines 632-649): check the flow, one new ring; a
handler-style callback registers a clonable handler, a separator-style
(bool-returning) callback registers a clonable separator whose false
output is the stop ring; the input flow is rebound to the new ring
(the open-flow count is unchanged). -/
def setHandler (f : Nat) (separatorStyle : Bool) (s : BState) : Except BuildError BState :=
  match checkFlow s f with
  | .error e => .error e
  | .ok r =>
  let ring := s.ringName
  .ok { s with
    ringName := s.ringName + 1
    clonable := s.clonable ++
      [if separatorStyle then .separateP r ring s.stopRing else .handleP r ring]
    flows := s.flows.set f (some ring) }

/-- The per-input loop of `SetMerger` (lines 657-662): check each flow,
merge its ring into the new ring, consume it. -/
def mergerLoop (ring : RingId) : List Nat → BState → Except BuildError BState
  | [], s => .ok s
  | f :: fs, s =>
    match checkFlow s f with
    | .error e => .error e
    | .ok r =>
    let s' := merge r ring s
    mergerLoop ring fs
      { s' with
        flows := s'.flows.set f none
        openFlowsNumber := s'.openFlowsNumber - 1 }

/-- The `SetMerger` (lines 655-667): create one new ring, fold the input
flows into it, return a new open flow over it. -/
def setMerger (fs : List Nat) (s : BState) : Except BuildError BState :=
  match mergerLoop s.ringName fs { s with ringName := s.ringName + 1 } with
  | .error e => .error e
  | .ok s' => .ok { s' with
    flows := s'.flows ++ [some s.ringName]
    openFlowsNumber := s'.openFlowsNumber + 1 }

/-- The port loop of `checkSystem` (lines 1307-1324): an active port with
neither rx nor tx queues is an error; an rx queue slot not marked used is
an error; unused tx queues are only a warning. -/
def checkPorts : List Port → Except BuildError Unit
  | [] => .ok ()
  | p :: ps =>
    if p.config = inactivePort then checkPorts ps
    else if p.rxQueuesNumber = 0 ∧ p.txQueuesNumber = 0 then .error .noQueues
    else if p.rxQueues.any (fun b => !b) then .error .unusedRxQueue
    else checkPorts ps

/-- The `checkSystem` (src/unnamed/part_001, lines 1303-1325): a non-zero
`openFlowsNumber` is a construction error; then the port checks run. -/
def checkSystem (s : BState) : Except BuildError Unit :=
  if s.openFlowsNumber ≠ 0 then .error .openFlowsLeft
  else checkPorts s.createdPorts

/-- One graph-builder call, with the arguments that matter to the model. -/
inductive Op where
  | opReader (repcount : Int)
  | opReceiver (portN : Nat)
  | opGenerator (targetSpeed : Nat)
  | opWriter (f : Nat)
  | opSender (f : Nat) (portN : Nat)
  | opPartitioner (f : Nat) (N M : Nat)
  | opSeparator (f : Nat)
  | opSplitter (f : Nat) (flowNumber : Nat)
  | opStopper (f : Nat)
  | opHandler (f : Nat) (separatorStyle : Bool)
  | opMerger (fs : List Nat)
  deriving DecidableEq, Repr

/-- The input Flow handles an operation consumes or rebinds (every one of
them goes through `checkFlow`). -/
def opInputs : Op → List Nat
  | .opReader _ => []
  | .opReceiver _ => []
  | .opGenerator _ => []
  | .opWriter f => [f]
  | .opSender f _ => [f]
  | .opPartitioner f _ _ => [f]
  | .opSeparator f => [f]
  | .opSplitter f _ => [f]
  | .opStopper f => [f]
  | .opHandler f _ => [f]
  | .opMerger fs => fs

/-- Apply one builder call to the construction state. -/
def applyOp : Op → BState → Except BuildError BState
  | .opReader rc, s => .ok (setReader rc s)
  | .opReceiver p, s => setReceiver p s
  | .opGenerator t, s => .ok (setGenerator t s)
  | .opWriter f, s => setWriter f s
  | .opSender f p, s => setSender f p s
  | .opPartitioner f N M, s => setPartitioner f N M s
  | .opSeparator f, s => setSeparator f s
  | .opSplitter f k, s => setSplitter f k s
  | .opStopper f, s => setStopper f s
  | .opHandler f b, s => setHandler f b s
  | .opMerger fs, s => setMerger fs s

/-- A sequence of builder calls. -/
def applyOps : List Op → BState → Except BuildError BState
  | [], s => .ok s
  | op :: ops, s =>
    match applyOp op s with
    | .error e => .error e
    | .ok s' => applyOps ops s'

/-- Number of Flow handles whose producer side is still open. -/
def openCount (s : BState) : Nat := (s.flows.filter Option.isSome).length

/-- Reachable-port facts: an active port has at least one queue, and
every rx queue slot is marked used. -/
def PortsOK (s : BState) : Prop :=
  ∀ p ∈ s.createdPorts,
    (p.config ≠ inactivePort → (p.rxQueuesNumber ≠ 0 ∨ p.txQueuesNumber ≠ 0)) ∧
      ∀ b ∈ p.rxQueues, b = true

/-- The builder invariant: the `openFlowsNumber` counter equals the
number of open Flow handles, and the port records are consistent. -/
def Inv (s : BState) : Prop :=
  s.openFlowsNumber = openCount s ∧ PortsOK s

instance : DecidablePred PortsOK := fun s => by
  unfold PortsOK; infer_instance

instance : DecidablePred Inv := fun s => by
  unfold Inv; infer_instance

instance {ε α : Type} [DecidableEq ε] [DecidableEq α] : DecidableEq (Except ε α)
  | .ok a, .ok b =>
    if h : a = b then .isTrue (by rw [h]) else .isFalse (by simp [h])
  | .ok _, .error _ => .isFalse (by simp)
  | .error _, .ok _ => .isFalse (by simp)
  | .error e, .error e' =>
    if h : e = e' then .isTrue (by rw [h]) else .isFalse (by simp [h])

end Flow

/-! ## Theorems -/

namespace Packet

/-- A bit-range mask picks out a field: `x &&& ((2^k - 1) <<< m)` is the
`k`-bit field of `x` at offset `m`, still in place. -/
theorem and_mask_shift (x k m : Nat) :
    x &&& ((2 ^ k - 1) <<< m) = ((x >>> m) % 2 ^ k) <<< m := by
  apply Nat.eq_of_testBit_eq
  intro i
  simp only [Nat.testBit_and, Nat.testBit_shiftLeft, Nat.testBit_two_pow_sub_one,
    Nat.testBit_mod_two_pow, Nat.testBit_shiftRight]
  by_cases hm : m ≤ i
  · have hmi : m + (i - m) = i := by omega
    simp [ge_iff_le, hm, hmi, Bool.and_comm, Bool.and_left_comm]
  · simp [ge_iff_le, hm]

/-- Combining four byte-aligned fields with `|||` is plain addition. -/
theorem four_byte_lor (a b c d : Nat) (hb : b < 2 ^ 8) (hc : c < 2 ^ 8) (hd : d < 2 ^ 8) :
    ((2 ^ 24 * a ||| 2 ^ 16 * b) ||| 2 ^ 8 * c) ||| d =
      2 ^ 24 * a + 2 ^ 16 * b + 2 ^ 8 * c + d := by
  rw [← Nat.mul_add_lt_is_or (show 2 ^ 16 * b < 2 ^ 24 by omega) a]
  rw [show 2 ^ 24 * a + 2 ^ 16 * b = 2 ^ 16 * (2 ^ 8 * a + b) by ring]
  rw [← Nat.mul_add_lt_is_or (show 2 ^ 8 * c < 2 ^ 16 by omega) (2 ^ 8 * a + b)]
  rw [show 2 ^ 16 * (2 ^ 8 * a + b) + 2 ^ 8 * c = 2 ^ 8 * (2 ^ 8 * (2 ^ 8 * a + b) + c) by ring]
  rw [← Nat.mul_add_lt_is_or hd (2 ^ 8 * (2 ^ 8 * a + b) + c)]

/-- Closed arithmetic form of `SwapBytesUint32`: the four bytes of `x` in
reverse order. -/
theorem swap32_eq (x : Nat) :
    SwapBytesUint32 x =
      2 ^ 24 * (x % 2 ^ 8) + 2 ^ 16 * (x / 2 ^ 8 % 2 ^ 8) +
        2 ^ 8 * (x / 2 ^ 16 % 2 ^ 8) + x / 2 ^ 24 % 2 ^ 8 := by
  unfold SwapBytesUint32
  have h1 : x &&& 0x000000ff = x % 2 ^ 8 := by
    rw [show (0x000000ff : Nat) = 2 ^ 8 - 1 by norm_num, Nat.and_pow_two_sub_one_eq_mod]
  have h2 : x &&& 0x0000ff00 = ((x >>> 8) % 2 ^ 8) <<< 8 := by
    rw [show (0x0000ff00 : Nat) = (2 ^ 8 - 1) <<< 8 by decide, and_mask_shift]
  have h3 : x &&& 0x00ff0000 = ((x >>> 16) % 2 ^ 8) <<< 16 := by
    rw [show (0x00ff0000 : Nat) = (2 ^ 8 - 1) <<< 16 by decide, and_mask_shift]
  have h4 : x &&& 0xff000000 = ((x >>> 24) % 2 ^ 8) <<< 24 := by
    rw [show (0xff000000 : Nat) = (2 ^ 8 - 1) <<< 24 by decide, and_mask_shift]
  rw [h1, h2, h3, h4]
  simp only [Nat.shiftLeft_eq, Nat.shiftRight_eq_div_pow]
  have e1 : x % 2 ^ 8 * 2 ^ 24 % 2 ^ 32 = 2 ^ 24 * (x % 2 ^ 8) := by omega
  have e2 : x / 2 ^ 8 % 2 ^ 8 * 2 ^ 8 * 2 ^ 8 % 2 ^ 32 = 2 ^ 16 * (x / 2 ^ 8 % 2 ^ 8) := by
    omega
  have e3 : x / 2 ^ 16 % 2 ^ 8 * 2 ^ 16 / 2 ^ 8 = 2 ^ 8 * (x / 2 ^ 16 % 2 ^ 8) := by omega
  have e4 : x / 2 ^ 24 % 2 ^ 8 * 2 ^ 24 / 2 ^ 24 = x / 2 ^ 24 % 2 ^ 8 := by omega
  rw [e1, e2, e3, e4]
  exact four_byte_lor _ _ _ _ (by omega) (by omega) (by omega)

/-- Reading the bytes back from a four-byte recombination. -/
theorem four_byte_roundtrip (a b c d : Nat) (ha : a < 2 ^ 8) (hb : b < 2 ^ 8)
    (hc : c < 2 ^ 8) (hd : d < 2 ^ 8) :
    (2 ^ 24 * a + 2 ^ 16 * b + 2 ^ 8 * c + d) % 2 ^ 8 = d ∧
    (2 ^ 24 * a + 2 ^ 16 * b + 2 ^ 8 * c + d) / 2 ^ 8 % 2 ^ 8 = c ∧
    (2 ^ 24 * a + 2 ^ 16 * b + 2 ^ 8 * c + d) / 2 ^ 16 % 2 ^ 8 = b ∧
    (2 ^ 24 * a + 2 ^ 16 * b + 2 ^ 8 * c + d) / 2 ^ 24 % 2 ^ 8 = a := by
  omega

/-- Closed arithmetic form of `SwapBytesUint16` on 16-bit values: the two
bytes of `x` exchanged. -/
theorem swap16_eq (x : Nat) (h : x < 2 ^ 16) :
    SwapBytesUint16 x = 2 ^ 8 * (x % 2 ^ 8) + x / 2 ^ 8 := by
  unfold SwapBytesUint16
  rw [Nat.shiftLeft_eq, Nat.shiftRight_eq_div_pow]
  rw [show (2 : Nat) ^ 16 = 2 ^ 8 * 2 ^ 8 by norm_num, Nat.mul_mod_mul_right]
  rw [show x % 2 ^ 8 * 2 ^ 8 = 2 ^ 8 * (x % 2 ^ 8) from Nat.mul_comm _ _]
  rw [← Nat.mul_add_lt_is_or (show x / 2 ^ 8 < 2 ^ 8 by omega) (x % 2 ^ 8)]

/-- C10: `SwapBytesUint16` and `SwapBytesUint32` are involutions on
16-bit and 32-bit values respectively — any header field written through
the byte swap reads back unchanged through the same swap. -/
theorem swapBytes_involutive :
    (∀ x, x < 2 ^ 16 → SwapBytesUint16 (SwapBytesUint16 x) = x) ∧
    (∀ x, x < 2 ^ 32 → SwapBytesUint32 (SwapBytesUint32 x) = x) := by
  constructor
  · intro x h
    have e1 := swap16_eq x h
    have hb : SwapBytesUint16 x < 2 ^ 16 := by rw [e1]; omega
    have e2 := swap16_eq _ hb
    rw [e2, e1]
    omega
  · intro x h
    rw [swap32_eq (SwapBytesUint32 x), swap32_eq x]
    obtain ⟨r1, r2, r3, r4⟩ :=
      four_byte_roundtrip (x % 2 ^ 8) (x / 2 ^ 8 % 2 ^ 8) (x / 2 ^ 16 % 2 ^ 8)
        (x / 2 ^ 24 % 2 ^ 8) (by omega) (by omega) (by omega) (by omega)
    rw [r1, r2, r3, r4]
    clear r1 r2 r3 r4
    omega

/-- C10 witness: both involutions evaluated at concrete header values. -/
theorem swapBytes_involutive_witness :
    SwapBytesUint16 (SwapBytesUint16 0xABCD) = 0xABCD ∧
    SwapBytesUint32 (SwapBytesUint32 0xDEADBEEF) = 0xDEADBEEF :=
  ⟨swapBytes_involutive.1 0xABCD (by decide), swapBytes_involutive.2 0xDEADBEEF (by decide)⟩

end Packet

namespace Flow

/-- C4 counterexample: at the default configuration
(`burst_size = 32`, `ring_size_multiplier = 256`) the threshold computed
by `SystemInit` is 6552, while the spec formula
`burst_size × ring_size_multiplier × 4 / 5` evaluates to 6553: the code
divides by 5 before multiplying by 4. -/
theorem maxPacketsToClone_default_ne_spec_formula :
    maxPacketsToClone 32 256 ≠ 32 * 256 * 4 / 5 := by
  decide

/-- C4 (amended): `maxPacketsToClone` equals
`sizeMultiplier * burstSize / 5 * 4` with the truncating division
performed before the multiplication by 4; it never exceeds the spec's
`burst_size × ring_size_multiplier × 4 / 5`, falls short of it by at
most 3, and agrees with it exactly when
`burst_size × ring_size_multiplier mod 5 ≤ 1`. -/
theorem maxPacketsToClone_div_before_mul (b m : Nat) (h : m * b < 2 ^ 32) :
    maxPacketsToClone b m = m * b / 5 * 4 ∧
    maxPacketsToClone b m ≤ b * m * 4 / 5 ∧
    b * m * 4 / 5 - maxPacketsToClone b m ≤ 3 ∧
    (maxPacketsToClone b m = b * m * 4 / 5 ↔ b * m % 5 ≤ 1) := by
  unfold maxPacketsToClone
  have h4 : m * b / 5 * 4 < 2 ^ 32 := by omega
  rw [Nat.mod_eq_of_lt h4]
  rw [show b * m = m * b from Nat.mul_comm b m]
  generalize m * b = t at h ⊢
  omega

/-- C4 witness: the amended statement at the default configuration. -/
theorem maxPacketsToClone_div_before_mul_witness :
    maxPacketsToClone 32 256 = 256 * 32 / 5 * 4 ∧
    maxPacketsToClone 32 256 ≤ 32 * 256 * 4 / 5 ∧
    32 * 256 * 4 / 5 - maxPacketsToClone 32 256 ≤ 3 ∧
    (maxPacketsToClone 32 256 = 32 * 256 * 4 / 5 ↔ 32 * 256 % 5 ≤ 1) :=
  maxPacketsToClone_div_before_mul 32 256 (by decide)

/-- C6: the should-clone predicates decide exactly the spec's
conditions — the perf generator clones iff the observed rate is strictly
below the target, and handle/separate/split clone iff the input ring
occupancy strictly exceeds the `maxPacketsToClone` threshold. -/
theorem clone_predicates (t s mx q : Nat) :
    (generateCheck t s = true ↔ s < t) ∧
    (handleCheck mx q = true ↔ q > mx) ∧
    (separateCheck mx q = true ↔ q > mx) ∧
    (splitCheck mx q = true ↔ q > mx) := by
  unfold generateCheck handleCheck separateCheck splitCheck
  refine ⟨?_, ?_, ?_, ?_⟩ <;> split <;> simp_all

/-- C1: when the output ring accepts only `done < number` handles of a
burst (`done = place.freeSpace`), `safeEnqueue` adds exactly
`number - done` to the scheduler's dropped counter, offers the remaining
`number - done` handles to the process-wide stop ring (which accepts
`done2 = min (number - done) stopRing.freeSpace` of them), hands the
rest to the synchronous direct-stop free, and every handle of the burst
ends in exactly one of the output ring, the stop ring, or the
direct-stop free; `safeEnqueue` is a total function — no branch blocks. -/
theorem safeEnqueue_sheds_exactly (place stopRing : Queue) (dropped : Nat)
    (data : List Nat) (number : Nat) (hlen : number ≤ data.length)
    (hfull : place.freeSpace < number) :
    (safeEnqueue place stopRing dropped data number).dropped
        = dropped + (number - place.freeSpace) ∧
    (safeEnqueue place stopRing dropped data number).place.buf
        = place.buf ++ data.take place.freeSpace ∧
    (safeEnqueue place stopRing dropped data number).stopRing.buf
        = stopRing.buf ++ ((data.take number).drop place.freeSpace).take
            (min (number - place.freeSpace) stopRing.freeSpace) ∧
    (safeEnqueue place stopRing dropped data number).freed
        = ((data.take number).drop place.freeSpace).drop
            (min (number - place.freeSpace) stopRing.freeSpace) ∧
    data.take place.freeSpace ++
        (((data.take number).drop place.freeSpace).take
            (min (number - place.freeSpace) stopRing.freeSpace) ++
          (safeEnqueue place stopRing dropped data number).freed)
      = data.take number := by
  have hdone : min number place.freeSpace = place.freeSpace :=
    Nat.min_eq_right (Nat.le_of_lt hfull)
  have hrest : ((data.take number).drop place.freeSpace).length
      = number - place.freeSpace := by
    simp [List.length_drop, List.length_take]
    omega
  have htk : data.take place.freeSpace = (data.take number).take place.freeSpace := by
    rw [List.take_take, Nat.min_eq_left (Nat.le_of_lt hfull)]
  by_cases h2 : min (number - place.freeSpace) stopRing.freeSpace
      < number - place.freeSpace
  · simp only [safeEnqueue, Queue.enqueueBurst, hdone, if_pos hfull, if_pos h2]
    refine ⟨trivial, trivial, trivial, trivial, ?_⟩
    rw [htk, List.take_append_drop, List.take_append_drop]
  · simp only [safeEnqueue, Queue.enqueueBurst, hdone, if_pos hfull, if_neg h2]
    have hmin : min (number - place.freeSpace) stopRing.freeSpace
        = number - place.freeSpace := by omega
    refine ⟨trivial, trivial, trivial, ?_, ?_⟩
    · rw [hmin, ← hrest, List.drop_length]
    · rw [hmin, ← hrest, List.take_length, List.append_nil]
      rw [htk, List.take_append_drop]

/-- C1 witness: a burst of 4 handles against an output ring with 2 free
slots and a stop ring with 1 free slot — 2 are enqueued, 2 are dropped
(1 into the stop ring, 1 direct-stopped). -/
theorem safeEnqueue_sheds_exactly_witness :
    (safeEnqueue ⟨2, []⟩ ⟨1, []⟩ 0 [10, 11, 12, 13] 4).dropped
        = 0 + (4 - Queue.freeSpace ⟨2, []⟩) ∧
    (safeEnqueue ⟨2, []⟩ ⟨1, []⟩ 0 [10, 11, 12, 13] 4).place.buf
        = [] ++ List.take (Queue.freeSpace ⟨2, []⟩) [10, 11, 12, 13] ∧
    (safeEnqueue ⟨2, []⟩ ⟨1, []⟩ 0 [10, 11, 12, 13] 4).stopRing.buf
        = [] ++ ((List.take 4 [10, 11, 12, 13]).drop (Queue.freeSpace ⟨2, []⟩)).take
            (min (4 - Queue.freeSpace ⟨2, []⟩) (Queue.freeSpace ⟨1, []⟩)) ∧
    (safeEnqueue ⟨2, []⟩ ⟨1, []⟩ 0 [10, 11, 12, 13] 4).freed
        = ((List.take 4 [10, 11, 12, 13]).drop (Queue.freeSpace ⟨2, []⟩)).drop
            (min (4 - Queue.freeSpace ⟨2, []⟩) (Queue.freeSpace ⟨1, []⟩)) ∧
    List.take (Queue.freeSpace ⟨2, []⟩) [10, 11, 12, 13] ++
        (((List.take 4 [10, 11, 12, 13]).drop (Queue.freeSpace ⟨2, []⟩)).take
            (min (4 - Queue.freeSpace ⟨2, []⟩) (Queue.freeSpace ⟨1, []⟩)) ++
          (safeEnqueue ⟨2, []⟩ ⟨1, []⟩ 0 [10, 11, 12, 13] 4).freed)
      = List.take 4 [10, 11, 12, 13] :=
  safeEnqueue_sheds_exactly ⟨2, []⟩ ⟨1, []⟩ 0 [10, 11, 12, 13] 4 (by decide) (by decide)

/-- The replica loop terminates iff a -1 arrives on the stop channel. -/
theorem replicaRun_terminates_iff (es : List REvent) (st : ReplicaState) :
    replicaRun st es = true ↔ REvent.stopSig (-1) ∈ es := by
  induction es generalizing st with
  | nil => simp [replicaRun]
  | cons e es ih =>
    cases e with
    | stopSig v =>
      by_cases hv : v = -1
      · subst hv; simp [replicaRun, replicaStep]
      · simp [replicaRun, replicaStep, hv, ih, eq_comm]
    | tick => simp [replicaRun, replicaStep, ih]
    | work n =>
      by_cases hn : n = 0
      · subst hn
        by_cases hp : st.pause ≠ 0 <;> simp [replicaRun, replicaStep, hp, ih]
      · simp [replicaRun, replicaStep, hn, ih]

/-- C9: the clonable-replica loop (a) reaches its terminated state over a
sequence of events iff -1 was received on the stop channel; (b) a single
step terminates exactly on stop value -1; (c) any other stop value `v`
becomes the pause value; (d) a work iteration that dequeues zero packets
sleeps `pause` nanoseconds when `pause` is non-zero and (e) busy-polls
without sleeping when `pause` is zero. -/
theorem replica_loop_protocol (st : ReplicaState) (es : List REvent) :
    (replicaRun st es = true ↔ REvent.stopSig (-1) ∈ es) ∧
    (∀ e, replicaStep st e = .terminated ↔ e = .stopSig (-1)) ∧
    (∀ v, v ≠ -1 → replicaStep st (.stopSig v) = .running ⟨v, st.currentSpeed⟩ []) ∧
    (st.pause ≠ 0 → replicaStep st (.work 0) = .running st [.slept st.pause]) ∧
    (st.pause = 0 → replicaStep st (.work 0) = .running st []) := by
  refine ⟨replicaRun_terminates_iff es st, ?_, ?_, ?_, ?_⟩
  · intro e
    cases e with
    | stopSig v => by_cases hv : v = -1 <;> simp [replicaStep, hv]
    | tick => simp [replicaStep]
    | work n =>
      by_cases hn : n = 0
      · subst hn; by_cases hp : st.pause ≠ 0 <;> simp [replicaStep, hp]
      · simp [replicaStep, hn]
  · intro v hv; simp [replicaStep, hv]
  · intro hp; simp [replicaStep, hp]
  · intro hp; simp [replicaStep, hp]

/-- C2: `merge` does not rewrite reader stages.  Concrete failing run:
`SetReader` opens a flow whose reader stage writes to ring 2; `SetMerger`
on that single flow allocates ring 3 and rewrites every producer whose
output ring is 2 — but the type switch in `merge` has no case for
`readParameters`, so the reader descriptor still writes to the merged
ring 2 while the merged flow is over ring 3.  This contradicts the
function's own comment (rewrite all out rings except send/stop/merge)
and the spec. -/
theorem merge_misses_reader :
    (applyOps [Op.opReader (-1), Op.opMerger [0]] (initState 0)).map
        (fun s => (s.unClonable, s.flows))
      = .ok ([Params.readP 2 (-1)], [none, some 3]) ∧
    (2 : RingId) ∈ outputRings (Params.readP 2 (-1)) ∧
    mergeUn 2 3 (Params.readP 2 (-1)) = Params.readP 2 (-1) := by
  decide

/-- C5 counterexample: `SetPartitioner` with `N = 0` on a freshly opened
reader flow is not a construction error — the builder call succeeds
(startup is not terminated) and only a warning is recorded. -/
theorem setPartitioner_zero_not_error :
    (applyOps [Op.opReader 1, Op.opPartitioner 0 0 5] (initState 0)).isOk = true ∧
    (applyOps [Op.opReader 1, Op.opPartitioner 0 0 5] (initState 0)).map
        (fun s => s.warnings) = .ok 1 := by
  decide

/-- C5 (amended): calling `SetPartitioner` with `N = 0` or `M = 0` on a
valid open flow logs one non-fatal configuration warning
(`common.LogWarning`) and construction proceeds normally: the call
succeeds, the partitioner is still registered, and the flows are wired
exactly as in the non-zero case. -/
theorem setPartitioner_zero_warns (s : BState) (f : Nat) (N M : Nat) (r : RingId)
    (hf : checkFlow s f = .ok r) (hz : N = 0 ∨ M = 0) :
    setPartitioner f N M s = .ok
      { s with
        warnings := s.warnings + 1
        ringName := s.ringName + 2
        openFlowsNumber := s.openFlowsNumber + 1
        unClonable := s.unClonable ++ [.partitionP r s.ringName (s.ringName + 1) N M]
        flows := (s.flows.set f (some s.ringName)) ++ [some (s.ringName + 1)] } := by
  unfold setPartitioner
  rw [hf]
  simp only [if_pos hz]

/-- C5 witness: the amended statement on the concrete failing input —
a reader flow partitioned with `N = 0`, `M = 5`. -/
theorem setPartitioner_zero_warns_witness :
    setPartitioner 0 0 5 (setReader 1 (initState 0)) = .ok
      { setReader 1 (initState 0) with
        warnings := (setReader 1 (initState 0)).warnings + 1
        ringName := (setReader 1 (initState 0)).ringName + 2
        openFlowsNumber := (setReader 1 (initState 0)).openFlowsNumber + 1
        unClonable := (setReader 1 (initState 0)).unClonable ++
          [.partitionP 2 (setReader 1 (initState 0)).ringName
            ((setReader 1 (initState 0)).ringName + 1) 0 5]
        flows := ((setReader 1 (initState 0)).flows.set 0
          (some (setReader 1 (initState 0)).ringName)) ++
          [some ((setReader 1 (initState 0)).ringName + 1)] } :=
  setPartitioner_zero_warns (setReader 1 (initState 0)) 0 0 5 2 (by decide) (Or.inl rfl)

/-- C9 witness: the protocol at a concrete replica state and event
sequence — a pause of 7 ns is adopted, a zero-dequeue sleeps, and the
run terminates on the -1 it contains. -/
theorem replica_loop_protocol_witness :
    (replicaRun ⟨7, 0⟩ [REvent.work 0, REvent.stopSig (-1)] = true ↔
      REvent.stopSig (-1) ∈ [REvent.work 0, REvent.stopSig (-1)]) ∧
    (∀ e, replicaStep ⟨7, 0⟩ e = .terminated ↔ e = .stopSig (-1)) ∧
    (∀ v, v ≠ -1 → replicaStep ⟨7, 0⟩ (.stopSig v) = .running ⟨v, 0⟩ []) ∧
    ((7 : Int) ≠ 0 → replicaStep ⟨7, 0⟩ (.work 0) = .running ⟨7, 0⟩ [.slept 7]) ∧
    ((7 : Int) = 0 → replicaStep ⟨7, 0⟩ (.work 0) = .running ⟨7, 0⟩ []) :=
  replica_loop_protocol ⟨7, 0⟩ [REvent.work 0, REvent.stopSig (-1)]

/-! ### Builder invariant machinery (C8) -/

/-- The `checkFlow` succeeds exactly on an open handle, yielding its ring. -/
theorem checkFlow_ok_iff (s : BState) (f : Nat) (r : RingId) :
    checkFlow s f = .ok r ↔ s.flows.get? f = some (some r) := by
  unfold checkFlow
  cases hg : s.flows.get? f with
  | none => simp
  | some o => cases o <;> simp

/-- The `checkFlow` reports the construction error on a consumed (or never
created) handle. -/
theorem checkFlow_closed (s : BState) (f : Nat)
    (h : (s.flows.get? f).join = none) : checkFlow s f = .error .flowClosed := by
  unfold checkFlow
  cases hg : s.flows.get? f with
  | none => rfl
  | some o =>
    cases o with
    | none => rfl
    | some r => rw [hg] at h; simp at h

/-- An index that resolves is within bounds. -/
theorem lt_of_get?_some {α : Type} {l : List α} {n : Nat} {a : α}
    (h : l.get? n = some a) : n < l.length := by
  by_contra hn
  push_neg at hn
  rw [List.get?_eq_none.mpr hn] at h
  cases h

/-- Appending one handle to the flow list. -/
theorem cntSome_append {α : Type} (l : List (Option α)) (x : Option α) :
    ((l ++ [x]).filter Option.isSome).length
      = (l.filter Option.isSome).length + (if x.isSome then 1 else 0) := by
  cases x <;> simp [List.filter_append]

/-- Closing an open handle removes exactly one from the open count. -/
theorem cntSome_set_none {α : Type} :
    ∀ (l : List (Option α)) (f : Nat) (r : α), l.get? f = some (some r) →
      ((l.set f none).filter Option.isSome).length + 1
        = (l.filter Option.isSome).length := by
  intro l
  induction l with
  | nil => intro f r h; cases h
  | cons x xs ih =>
    intro f r h
    cases f with
    | zero =>
      rw [List.get?_cons_zero] at h
      injection h with h
      subst h
      simp [List.set]
    | succ f =>
      rw [List.get?_cons_succ] at h
      have hx := ih f r h
      cases x <;> simp [List.set] <;> omega

/-- Rebinding an open handle to another ring keeps the open count. -/
theorem cntSome_set_some {α : Type} :
    ∀ (l : List (Option α)) (f : Nat) (r r' : α), l.get? f = some (some r) →
      ((l.set f (some r')).filter Option.isSome).length
        = (l.filter Option.isSome).length := by
  intro l
  induction l with
  | nil => intro f r r' h; cases h
  | cons x xs ih =>
    intro f r r' h
    cases f with
    | zero =>
      rw [List.get?_cons_zero] at h
      injection h with h
      subst h
      simp [List.set]
    | succ f =>
      rw [List.get?_cons_succ] at h
      have hx := ih f r r' h
      cases x <;> simp [List.set] <;> omega

/-- Under the port facts the port loop of `checkSystem` passes. -/
theorem checkPorts_ok :
    ∀ ps : List Port,
      (∀ p ∈ ps,
        (p.config ≠ inactivePort → (p.rxQueuesNumber ≠ 0 ∨ p.txQueuesNumber ≠ 0)) ∧
          ∀ b ∈ p.rxQueues, b = true) →
      checkPorts ps = .ok () := by
  intro ps
  induction ps with
  | nil => intro _; rfl
  | cons p ps ih =>
    intro h
    have hp := h p (List.mem_cons_self p ps)
    have hps := fun q hq => h q (List.mem_cons_of_mem p hq)
    unfold checkPorts
    by_cases hc : p.config = inactivePort
    · rw [if_pos hc]
      exact ih hps
    · have hany : p.rxQueues.any (fun b => !b) = false :=
        List.any_eq_false.mpr (fun b hb => by simp [hp.2 b hb])
      rw [if_neg hc, if_neg ?_, if_neg ?_]
      · exact ih hps
      · simp [hany]
      · rintro ⟨h0, h1⟩
        rcases hp.1 hc with h' | h'
        · exact h' h0
        · exact h' h1

/-- The `SetReader` keeps the invariant: one more handle, counter plus one. -/
theorem inv_setReader (rc : Int) (s : BState) (h : Inv s) : Inv (setReader rc s) := by
  obtain ⟨h1, h2⟩ := h
  constructor
  · simp only [setReader, openCount, cntSome_append]
    simp only [openCount] at h1
    simp [h1]
  · exact h2

/-- The `SetGenerator` keeps the invariant in both branches. -/
theorem inv_setGenerator (t : Nat) (s : BState) (h : Inv s) : Inv (setGenerator t s) := by
  obtain ⟨h1, h2⟩ := h
  simp only [openCount] at h1
  unfold setGenerator
  split
  · exact ⟨by simp only [openCount, cntSome_append]; simp [h1], h2⟩
  · exact ⟨by simp only [openCount, cntSome_append]; simp [h1], h2⟩

/-- The `SetReceiver` keeps the invariant: one more handle and counter, the
touched port becomes auto with a fresh used rx queue. -/
theorem inv_setReceiver (p : Nat) (s s' : BState) (h : Inv s)
    (h' : setReceiver p s = .ok s') : Inv s' := by
  obtain ⟨h1, h2⟩ := h
  simp only [openCount] at h1
  unfold setReceiver at h'
  split at h'
  · cases h'
  · rename_i pp hg
    split at h'
    · cases h'
    · injection h' with h'
      subst h'
      constructor
      · simp only [openCount, cntSome_append]
        simp [h1]
      · intro q hq
        rcases List.mem_or_eq_of_mem_set hq with hq' | hq'
        · exact h2 q hq'
        · subst hq'
          refine ⟨fun _ => Or.inl (by simp), fun b hb => ?_⟩
          rcases List.mem_append.mp hb with hb' | hb'
          · exact (h2 pp (List.get?_mem hg)).2 b hb'
          · simpa using hb'

/-- The `SetWriter` keeps the invariant: one handle closed, counter minus one. -/
theorem inv_setWriter (f : Nat) (s s' : BState) (h : Inv s)
    (h' : setWriter f s = .ok s') : Inv s' := by
  obtain ⟨h1, h2⟩ := h
  simp only [openCount] at h1
  unfold setWriter at h'
  cases hc : checkFlow s f with
  | error e => rw [hc] at h'; cases h'
  | ok r =>
    rw [hc] at h'
    injection h' with h'
    subst h'
    have hg := (checkFlow_ok_iff s f r).mp hc
    have hcnt := cntSome_set_none s.flows f r hg
    constructor
    · simp only [openCount]
      omega
    · exact h2

/-- The `SetSender` keeps the invariant: one handle closed, counter minus
one, the touched port becomes auto with a fresh used tx queue. -/
theorem inv_setSender (f p : Nat) (s s' : BState) (h : Inv s)
    (h' : setSender f p s = .ok s') : Inv s' := by
  obtain ⟨h1, h2⟩ := h
  simp only [openCount] at h1
  unfold setSender at h'
  split at h'
  · cases h'
  · rename_i r hc
    split at h'
    · cases h'
    · rename_i pp hg
      split at h'
      · cases h'
      · injection h' with h'
        subst h'
        have hgf := (checkFlow_ok_iff s f r).mp hc
        have hcnt := cntSome_set_none s.flows f r hgf
        constructor
        · simp only [openCount]
          omega
        · intro q hq
          rcases List.mem_or_eq_of_mem_set hq with hq' | hq'
          · exact h2 q hq'
          · subst hq'
            exact ⟨fun _ => Or.inr (by simp), (h2 pp (List.get?_mem hg)).2⟩

/-- The `SetPartitioner` keeps the invariant: the input handle is rebound,
one new handle, counter plus one. -/
theorem inv_setPartitioner (f N M : Nat) (s s' : BState) (h : Inv s)
    (h' : setPartitioner f N M s = .ok s') : Inv s' := by
  obtain ⟨h1, h2⟩ := h
  simp only [openCount] at h1
  unfold setPartitioner at h'
  cases hc : checkFlow s f with
  | error e => rw [hc] at h'; cases h'
  | ok r =>
    rw [hc] at h'
    injection h' with h'
    subst h'
    have hgf := (checkFlow_ok_iff s f r).mp hc
    constructor
    · simp only [openCount, cntSome_append, cntSome_set_some s.flows f r s.ringName hgf]
      simp [h1]
    · exact h2

/-- The `SetSeparator` keeps the invariant: the input handle is rebound, one
new handle, counter plus one. -/
theorem inv_setSeparator (f : Nat) (s s' : BState) (h : Inv s)
    (h' : setSeparator f s = .ok s') : Inv s' := by
  obtain ⟨h1, h2⟩ := h
  simp only [openCount] at h1
  unfold setSeparator at h'
  cases hc : checkFlow s f with
  | error e => rw [hc] at h'; cases h'
  | ok r =>
    rw [hc] at h'
    injection h' with h'
    subst h'
    have hgf := (checkFlow_ok_iff s f r).mp hc
    constructor
    · simp only [openCount, cntSome_append, cntSome_set_some s.flows f r s.ringName hgf]
      simp [h1]
    · exact h2

/-- The `SetHandler` keeps the invariant: the input handle is rebound to the
new ring, the open-flow count is unchanged. -/
theorem inv_setHandler (f : Nat) (b : Bool) (s s' : BState) (h : Inv s)
    (h' : setHandler f b s = .ok s') : Inv s' := by
  obtain ⟨h1, h2⟩ := h
  simp only [openCount] at h1
  unfold setHandler at h'
  cases hc : checkFlow s f with
  | error e => rw [hc] at h'; cases h'
  | ok r =>
    rw [hc] at h'
    injection h' with h'
    subst h'
    have hgf := (checkFlow_ok_iff s f r).mp hc
    constructor
    · simp only [openCount, cntSome_set_some s.flows f r s.ringName hgf]
      exact h1
    · exact h2

/-- The `SetStopper` keeps the invariant: `merge` touches only the stage
lists; the input handle is closed, counter minus one. -/
theorem inv_setStopper (f : Nat) (s s' : BState) (h : Inv s)
    (h' : setStopper f s = .ok s') : Inv s' := by
  obtain ⟨h1, h2⟩ := h
  simp only [openCount] at h1
  unfold setStopper at h'
  cases hc : checkFlow s f with
  | error e => rw [hc] at h'; cases h'
  | ok r =>
    rw [hc] at h'
    injection h' with h'
    subst h'
    have hgf := (checkFlow_ok_iff s f r).mp hc
    have hcnt := cntSome_set_none s.flows f r hgf
    constructor
    · simp only [openCount, merge]
      omega
    · exact h2

/-- The flow-creation loop of `SetSplitter` keeps the counter equation,
leaves the ports alone, and only appends to the flow list. -/
theorem inv_splitterFlows (k : Nat) :
    ∀ s : BState, s.openFlowsNumber = openCount s →
      (splitterFlows k s).2.openFlowsNumber = openCount (splitterFlows k s).2 ∧
      (splitterFlows k s).2.createdPorts = s.createdPorts ∧
      (∀ f, f < s.flows.length →
        (splitterFlows k s).2.flows.get? f = s.flows.get? f) ∧
      s.flows.length ≤ (splitterFlows k s).2.flows.length := by
  induction k with
  | zero => intro s h1; exact ⟨h1, rfl, fun f _ => rfl, Nat.le_refl _⟩
  | succ k ih =>
    intro s h1
    have h1' : ({ s with
        ringName := s.ringName + 1
        flows := s.flows ++ [some s.ringName]
        openFlowsNumber := s.openFlowsNumber + 1 } : BState).openFlowsNumber
        = openCount { s with
            ringName := s.ringName + 1
            flows := s.flows ++ [some s.ringName]
            openFlowsNumber := s.openFlowsNumber + 1 } := by
      simp only [openCount, cntSome_append]
      simp only [openCount] at h1
      simp [h1]
    obtain ⟨a, b, c, d⟩ := ih _ h1'
    simp only [splitterFlows]
    refine ⟨a, b, ?_, ?_⟩
    · intro f hf
      rw [c f (by simp; omega)]
      exact List.get?_append hf
    · simp only [List.length_append, List.length_singleton] at d
      omega

/-- The `SetSplitter` keeps the invariant: `flowNumber` new handles, the
input closed — net counter change `flowNumber - 1`. -/
theorem inv_setSplitter (f k : Nat) (s s' : BState) (h : Inv s)
    (h' : setSplitter f k s = .ok s') : Inv s' := by
  obtain ⟨h1, h2⟩ := h
  unfold setSplitter at h'
  cases hc : checkFlow s f with
  | error e => rw [hc] at h'; cases h'
  | ok r =>
    rw [hc] at h'
    injection h' with h'
    subst h'
    have hgf := (checkFlow_ok_iff s f r).mp hc
    obtain ⟨a, b, c, d⟩ := inv_splitterFlows k s h1
    have hg2 : (splitterFlows k s).2.flows.get? f = some (some r) := by
      rw [c f (lt_of_get?_some hgf)]
      exact hgf
    have hcnt := cntSome_set_none (splitterFlows k s).2.flows f r hg2
    constructor
    · simp only [openCount] at a ⊢
      omega
    · intro q hq
      apply h2
      rw [← b]
      exact hq

/-- The input loop of `SetMerger` keeps the counter equation and leaves
the ports alone. -/
theorem inv_mergerLoop (ring : RingId) :
    ∀ (fs : List Nat) (s s' : BState),
      s.openFlowsNumber = openCount s →
      mergerLoop ring fs s = .ok s' →
      s'.openFlowsNumber = openCount s' ∧ s'.createdPorts = s.createdPorts := by
  intro fs
  induction fs with
  | nil =>
    intro s s' h1 h'
    injection h' with h'
    subst h'
    exact ⟨h1, rfl⟩
  | cons f1 fs ih =>
    intro s s' h1 h'
    unfold mergerLoop at h'
    cases hc : checkFlow s f1 with
    | error e => rw [hc] at h'; cases h'
    | ok r =>
      rw [hc] at h'
      have hgf := (checkFlow_ok_iff s f1 r).mp hc
      have hcnt := cntSome_set_none s.flows f1 r hgf
      simp only [openCount] at h1
      have h1' : ({ merge r ring s with
          flows := (merge r ring s).flows.set f1 none
          openFlowsNumber := (merge r ring s).openFlowsNumber - 1 } : BState).openFlowsNumber
          = openCount { merge r ring s with
              flows := (merge r ring s).flows.set f1 none
              openFlowsNumber := (merge r ring s).openFlowsNumber - 1 } := by
        simp only [openCount, merge]
        omega
      obtain ⟨a, b⟩ := ih _ s' h1' h'
      exact ⟨a, b⟩

/-- The `SetMerger` keeps the invariant: every input handle closed, one new
handle over the merged ring. -/
theorem inv_setMerger (fs : List Nat) (s s' : BState) (h : Inv s)
    (h' : setMerger fs s = .ok s') : Inv s' := by
  obtain ⟨h1, h2⟩ := h
  unfold setMerger at h'
  split at h'
  · cases h'
  · rename_i s2 hm
    injection h' with h'
    subst h'
    obtain ⟨a, b⟩ := inv_mergerLoop s.ringName fs _ s2 (by exact h1) hm
    constructor
    · simp only [openCount, cntSome_append] at a ⊢
      simp [a]
    · intro q hq
      apply h2
      rw [← b]
      exact hq

/-- Every builder call preserves the invariant. -/
theorem inv_applyOp (op : Op) (s s' : BState) (h : Inv s)
    (h' : applyOp op s = .ok s') : Inv s' := by
  cases op with
  | opReader rc => injection h' with h'; subst h'; exact inv_setReader rc s h
  | opReceiver p => exact inv_setReceiver p s s' h h'
  | opGenerator t => injection h' with h'; subst h'; exact inv_setGenerator t s h
  | opWriter f => exact inv_setWriter f s s' h h'
  | opSender f p => exact inv_setSender f p s s' h h'
  | opPartitioner f N M => exact inv_setPartitioner f N M s s' h h'
  | opSeparator f => exact inv_setSeparator f s s' h h'
  | opSplitter f k => exact inv_setSplitter f k s s' h h'
  | opStopper f => exact inv_setStopper f s s' h h'
  | opHandler f b => exact inv_setHandler f b s s' h h'
  | opMerger fs => exact inv_setMerger fs s s' h h'

/-- Any sequence of builder calls preserves the invariant. -/
theorem inv_applyOps :
    ∀ (ops : List Op) (s s' : BState), Inv s → applyOps ops s = .ok s' → Inv s' := by
  intro ops
  induction ops with
  | nil =>
    intro s s' h h'
    injection h' with h'
    subst h'
    exact h
  | cons op ops ih =>
    intro s s' h h'
    unfold applyOps at h'
    cases ha : applyOp op s with
    | error e => rw [ha] at h'; cases h'
    | ok s2 => rw [ha] at h'; exact ih s2 s' (inv_applyOp op s s2 h ha) h'

/-- Initialization by `SystemInit` establishes the invariant. -/
theorem inv_initState (n : Nat) : Inv (initState n) := by
  constructor
  · rfl
  · intro p hp
    have hp' := List.eq_of_mem_replicate hp
    subst hp'
    exact ⟨fun hcf => absurd rfl hcf, fun b hb => absurd hb (List.not_mem_nil b)⟩

/-- The input loop of `SetMerger` errors when one of its inputs is
closed. -/
theorem mergerLoop_closed (ring : RingId) :
    ∀ (fs : List Nat) (s : BState) (f : Nat), f ∈ fs →
      (s.flows.get? f).join = none → ∃ e, mergerLoop ring fs s = .error e := by
  intro fs
  induction fs with
  | nil => intro s f hf _; cases hf
  | cons f1 fs ih =>
    intro s f hf hc
    unfold mergerLoop
    cases hc1 : checkFlow s f1 with
    | error e => exact ⟨e, rfl⟩
    | ok r =>
      rcases List.mem_cons.mp hf with hf1 | hf1
      · subst hf1
        rw [(checkFlow_ok_iff s f r).mp hc1] at hc
        simp at hc
      · have hne : f ≠ f1 := by
          intro he
          subst he
          rw [(checkFlow_ok_iff s f r).mp hc1] at hc
          simp at hc
        have hget : (s.flows.set f1 none).get? f = s.flows.get? f :=
          List.get?_set_ne none s.flows (Ne.symm hne)
        obtain ⟨e, he⟩ := ih _ f hf1 (by rw [show ({ merge r ring s with
            flows := (merge r ring s).flows.set f1 none
            openFlowsNumber := (merge r ring s).openFlowsNumber - 1 } : BState).flows.get? f
              = s.flows.get? f from hget]; exact hc)
        exact ⟨e, he⟩

/-- Every builder call that takes an input flow errors on a consumed
handle. -/
theorem applyOp_closed (op : Op) (s : BState) (f : Nat) (hf : f ∈ opInputs op)
    (hc : (s.flows.get? f).join = none) : ∃ e, applyOp op s = .error e := by
  have hcf := checkFlow_closed s f hc
  cases op with
  | opReader rc => simp [opInputs] at hf
  | opReceiver p => simp [opInputs] at hf
  | opGenerator t => simp [opInputs] at hf
  | opWriter f' =>
    have he : f = f' := by simpa [opInputs] using hf
    subst he
    refine ⟨.flowClosed, ?_⟩
    show setWriter f s = .error .flowClosed
    unfold setWriter
    rw [hcf]
  | opSender f' p =>
    have he : f = f' := by simpa [opInputs] using hf
    subst he
    refine ⟨.flowClosed, ?_⟩
    show setSender f p s = .error .flowClosed
    unfold setSender
    rw [hcf]
  | opPartitioner f' N M =>
    have he : f = f' := by simpa [opInputs] using hf
    subst he
    refine ⟨.flowClosed, ?_⟩
    show setPartitioner f N M s = .error .flowClosed
    unfold setPartitioner
    rw [hcf]
  | opSeparator f' =>
    have he : f = f' := by simpa [opInputs] using hf
    subst he
    refine ⟨.flowClosed, ?_⟩
    show setSeparator f s = .error .flowClosed
    unfold setSeparator
    rw [hcf]
  | opSplitter f' k =>
    have he : f = f' := by simpa [opInputs] using hf
    subst he
    refine ⟨.flowClosed, ?_⟩
    show setSplitter f k s = .error .flowClosed
    unfold setSplitter
    rw [hcf]
  | opStopper f' =>
    have he : f = f' := by simpa [opInputs] using hf
    subst he
    refine ⟨.flowClosed, ?_⟩
    show setStopper f s = .error .flowClosed
    unfold setStopper
    rw [hcf]
  | opHandler f' b =>
    have he : f = f' := by simpa [opInputs] using hf
    subst he
    refine ⟨.flowClosed, ?_⟩
    show setHandler f b s = .error .flowClosed
    unfold setHandler
    rw [hcf]
  | opMerger fs =>
    simp only [opInputs] at hf
    obtain ⟨e, he⟩ := mergerLoop_closed s.ringName fs
      { s with ringName := s.ringName + 1 } f hf hc
    refine ⟨e, ?_⟩
    show setMerger fs s = .error e
    unfold setMerger
    rw [he]

/-- Under the invariant, `checkSystem` succeeds iff no flow is open. -/
theorem checkSystem_ok_iff (s : BState) (h : Inv s) :
    checkSystem s = .ok () ↔ openCount s = 0 := by
  obtain ⟨h1, h2⟩ := h
  unfold checkSystem
  by_cases h0 : s.openFlowsNumber ≠ 0
  · rw [if_pos h0]
    constructor
    · intro he; cases he
    · intro hcnt; exact absurd (h1.trans hcnt) h0
  · rw [if_neg h0]
    push_neg at h0
    constructor
    · intro _; exact h1.symm.trans h0
    · intro _; exact checkPorts_ok s.createdPorts h2

/-- C8: (a) every graph-construction operation that takes an input Flow
reports a construction error when any of its input handles was already
consumed (its ring reference is nil); (b) after every sequence of
builder calls starting at `SystemInit`, the `openFlowsNumber` counter
equals the number of Flow handles whose producer side is still open, and
`checkSystem` (run by `SystemStart`) succeeds iff that number is zero. -/
theorem builder_open_flow_accounting :
    (∀ (op : Op) (s : BState) (f : Nat), f ∈ opInputs op →
        (s.flows.get? f).join = none → ∃ e, applyOp op s = .error e) ∧
    (∀ (ops : List Op) (n : Nat) (s : BState), applyOps ops (initState n) = .ok s →
        s.openFlowsNumber = openCount s ∧ (checkSystem s = .ok () ↔ openCount s = 0)) := by
  constructor
  · exact fun op s f hf hc => applyOp_closed op s f hf hc
  · intro ops n s h'
    have hinv := inv_applyOps ops (initState n) s (inv_initState n) h'
    exact ⟨hinv.1, checkSystem_ok_iff s hinv⟩

/-! ### Burst-array machinery (C3, C7) -/

/-- Writing the next cell and reading one more cell appends it. -/
theorem extractArr_update_last {α : Type} (a : Nat → α) (c : Nat) (x : α) :
    extractArr (Function.update a c x) (c + 1) = extractArr a c ++ [x] := by
  unfold extractArr
  rw [List.range_succ, List.map_append]
  congr 1
  · apply List.map_congr_left
    intro j hj
    exact Function.update_noteq (Nat.ne_of_lt (List.mem_range.mp hj)) x a
  · simp

/-- The `separate` loop body: the final loop index, the final
`countOfPackets`, and the contents of the two burst arrays, all in terms
of the callback results paired with the packets. -/
theorem separateLoop_spec {α : Type} :
    ∀ (ps : List (α × Bool)) (i cnt : Nat) (aT aF : Nat → α), cnt ≤ i →
      (separateLoop ps i cnt aT aF).i = i + ps.length ∧
      (separateLoop ps i cnt aT aF).cnt
        = cnt + ((ps.filter fun p => !p.2).map Prod.fst).length ∧
      extractArr (separateLoop ps i cnt aT aF).aF (separateLoop ps i cnt aT aF).cnt
        = extractArr aF cnt ++ (ps.filter fun p => !p.2).map Prod.fst ∧
      extractArr (separateLoop ps i cnt aT aF).aT
          ((separateLoop ps i cnt aT aF).i - (separateLoop ps i cnt aT aF).cnt)
        = extractArr aT (i - cnt) ++ (ps.filter fun p => p.2).map Prod.fst := by
  intro ps
  induction ps with
  | nil => intro i cnt aT aF h; simp [separateLoop]
  | cons p ps ih =>
    obtain ⟨x, t⟩ := p
    intro i cnt aT aF hci
    cases t with
    | false =>
      have hstep : separateLoop ((x, false) :: ps) i cnt aT aF
          = separateLoop ps (i + 1) (cnt + 1) aT (Function.update aF cnt x) := rfl
      obtain ⟨e1, e2, e3, e4⟩ := ih (i + 1) (cnt + 1) aT (Function.update aF cnt x) (by omega)
      rw [hstep]
      have hfilF : ((x, false) :: ps).filter (fun p => !p.2)
          = (x, false) :: ps.filter (fun p => !p.2) := by simp
      have hfilT : ((x, false) :: ps).filter (fun p => p.2)
          = ps.filter (fun p => p.2) := by simp
      rw [hfilF, hfilT]
      refine ⟨?_, ?_, ?_, ?_⟩
      · rw [e1]; simp [List.length_cons]; omega
      · rw [e2]; simp [List.length_cons]; omega
      · rw [e3, extractArr_update_last]; simp
      · rw [e4, Nat.add_sub_add_right]
    | true =>
      have hstep : separateLoop ((x, true) :: ps) i cnt aT aF
          = separateLoop ps (i + 1) cnt (Function.update aT (i - cnt) x) aF := rfl
      obtain ⟨e1, e2, e3, e4⟩ := ih (i + 1) cnt (Function.update aT (i - cnt) x) aF (by omega)
      rw [hstep]
      have hfilF : ((x, true) :: ps).filter (fun p => !p.2)
          = ps.filter (fun p => !p.2) := by simp
      have hfilT : ((x, true) :: ps).filter (fun p => p.2)
          = (x, true) :: ps.filter (fun p => p.2) := by simp
      rw [hfilF, hfilT]
      refine ⟨?_, ?_, ?_, ?_⟩
      · rw [e1]; simp [List.length_cons]; omega
      · rw [e2]
      · exact e3
      · rw [e4]
        have hsub : i + 1 - cnt = (i - cnt) + 1 := by omega
        rw [hsub, extractArr_update_last]
        simp

/-- The `separate` stage's burst processing in closed form: the
true-output is the selected subsequence in order, the false-output the
complement in order. -/
theorem separateBurst_eq {α : Type} [Inhabited α] (ps : List (α × Bool)) :
    separateBurst ps
      = ((ps.filter fun p => p.2).map Prod.fst,
          (ps.filter fun p => !p.2).map Prod.fst) := by
  obtain ⟨e1, e2, e3, e4⟩ :=
    separateLoop_spec ps 0 0 (fun _ => (default : α)) (fun _ => (default : α)) (Nat.le_refl 0)
  unfold separateBurst
  simp only [Prod.mk.injEq]
  constructor
  · have hlen : ps.length - (separateLoop ps 0 0 (fun _ => (default : α))
        (fun _ => (default : α))).cnt
        = (separateLoop ps 0 0 (fun _ => (default : α)) (fun _ => (default : α))).i
          - (separateLoop ps 0 0 (fun _ => (default : α)) (fun _ => (default : α))).cnt := by
      rw [e1]
      omega
    rw [hlen, e4]
    simp [extractArr]
  · rw [e3]
    simp [extractArr]

/-- Selecting by a boolean callback partitions the burst: the two output
counts always sum to the burst size. -/
theorem filter_bool_length {α : Type} (p : α → Bool) (l : List α) :
    (l.filter p).length + (l.filter fun x => !p x).length = l.length := by
  induction l with
  | nil => rfl
  | cons x xs ih => cases hx : p x <;> simp [List.filter_cons, hx] <;> omega

/-- Pairing packets with their scalar-callback results and filtering by
the result is filtering by the callback. -/
theorem map_pair_filter {α : Type} (f : α → Bool) (l : List α) :
    ((l.map fun x => (x, f x)).filter fun p => p.2).map Prod.fst = l.filter f ∧
    ((l.map fun x => (x, f x)).filter fun p => !p.2).map Prod.fst
      = l.filter fun x => !f x := by
  induction l with
  | nil => exact ⟨rfl, rfl⟩
  | cons x xs ih =>
    cases hx : f x <;> simp [List.filter_cons, hx, ih.1, ih.2]

/-- The `partition` burst loop agrees step for step with the spec's
Moore machine: final `(sw, currentPacketNumber)`, final loop index and
`countOfPackets`, and the contents of the two burst arrays. -/
theorem partitionLoop_spec {α : Type} (N M : Nat) :
    ∀ (l : List α) (sw : Bool) (cur i cnt : Nat) (aF aS : Nat → α), cnt ≤ i →
      ((partitionLoop N M l sw cur i cnt aF aS).sw,
          (partitionLoop N M l sw cur i cnt aF aS).cur)
        = pairOfMoore (mooreRun N M l (mooreOf sw cur)).2 ∧
      (partitionLoop N M l sw cur i cnt aF aS).i = i + l.length ∧
      (partitionLoop N M l sw cur i cnt aF aS).cnt
        = cnt + (mooreRun N M l (mooreOf sw cur)).1.1.length ∧
      extractArr (partitionLoop N M l sw cur i cnt aF aS).aF
          (partitionLoop N M l sw cur i cnt aF aS).cnt
        = extractArr aF cnt ++ (mooreRun N M l (mooreOf sw cur)).1.1 ∧
      extractArr (partitionLoop N M l sw cur i cnt aF aS).aS
          ((partitionLoop N M l sw cur i cnt aF aS).i
            - (partitionLoop N M l sw cur i cnt aF aS).cnt)
        = extractArr aS (i - cnt) ++ (mooreRun N M l (mooreOf sw cur)).1.2 := by
  intro l
  induction l with
  | nil =>
    intro sw cur i cnt aF aS hci
    cases sw <;> simp [partitionLoop, mooreRun, mooreOf, pairOfMoore]
  | cons x xs ih =>
    intro sw cur i cnt aF aS hci
    cases sw with
    | true =>
      by_cases hN : cur + 1 = N
      · have hstep : partitionLoop N M (x :: xs) true cur i cnt aF aS
            = partitionLoop N M xs false 0 (i + 1) (cnt + 1)
                (Function.update aF cnt x) aS := by
          simp [partitionLoop, hN]
        have hm : mooreRun N M (x :: xs) (mooreOf true cur)
            = ((x :: (mooreRun N M xs (MooreState.secondSide 0)).1.1,
                (mooreRun N M xs (MooreState.secondSide 0)).1.2),
                (mooreRun N M xs (MooreState.secondSide 0)).2) := by
          simp [mooreRun, mooreOf, mooreStep, hN]
        obtain ⟨e1, e2, e3, e4, e5⟩ :=
          ih false 0 (i + 1) (cnt + 1) (Function.update aF cnt x) aS (by omega)
        simp only [mooreOf] at e1 e3 e4 e5
        rw [hstep, hm]
        refine ⟨e1, ?_, ?_, ?_, ?_⟩
        · rw [e2]; simp [List.length_cons]; omega
        · rw [e3]; simp [List.length_cons]; omega
        · rw [e4, extractArr_update_last]; simp
        · rw [e5, Nat.add_sub_add_right]
      · have hstep : partitionLoop N M (x :: xs) true cur i cnt aF aS
            = partitionLoop N M xs true (cur + 1) (i + 1) (cnt + 1)
                (Function.update aF cnt x) aS := by
          simp [partitionLoop, hN]
        have hm : mooreRun N M (x :: xs) (mooreOf true cur)
            = ((x :: (mooreRun N M xs (MooreState.firstSide (cur + 1))).1.1,
                (mooreRun N M xs (MooreState.firstSide (cur + 1))).1.2),
                (mooreRun N M xs (MooreState.firstSide (cur + 1))).2) := by
          simp [mooreRun, mooreOf, mooreStep, hN]
        obtain ⟨e1, e2, e3, e4, e5⟩ :=
          ih true (cur + 1) (i + 1) (cnt + 1) (Function.update aF cnt x) aS (by omega)
        simp only [mooreOf] at e1 e3 e4 e5
        rw [hstep, hm]
        refine ⟨e1, ?_, ?_, ?_, ?_⟩
        · rw [e2]; simp [List.length_cons]; omega
        · rw [e3]; simp [List.length_cons]; omega
        · rw [e4, extractArr_update_last]; simp
        · rw [e5, Nat.add_sub_add_right]
    | false =>
      by_cases hM : cur + 1 = M
      · have hstep : partitionLoop N M (x :: xs) false cur i cnt aF aS
            = partitionLoop N M xs true 0 (i + 1) cnt aF
                (Function.update aS (i - cnt) x) := by
          simp [partitionLoop, hM]
        have hm : mooreRun N M (x :: xs) (mooreOf false cur)
            = (((mooreRun N M xs (MooreState.firstSide 0)).1.1,
                x :: (mooreRun N M xs (MooreState.firstSide 0)).1.2),
                (mooreRun N M xs (MooreState.firstSide 0)).2) := by
          simp [mooreRun, mooreOf, mooreStep, hM]
        obtain ⟨e1, e2, e3, e4, e5⟩ :=
          ih true 0 (i + 1) cnt aF (Function.update aS (i - cnt) x) (by omega)
        simp only [mooreOf] at e1 e3 e4 e5
        rw [hstep, hm]
        refine ⟨e1, ?_, ?_, e4, ?_⟩
        · rw [e2]; simp [List.length_cons]; omega
        · rw [e3]
        · rw [e5]
          have hsub : i + 1 - cnt = (i - cnt) + 1 := by omega
          rw [hsub, extractArr_update_last]
          simp
      · have hstep : partitionLoop N M (x :: xs) false cur i cnt aF aS
            = partitionLoop N M xs false (cur + 1) (i + 1) cnt aF
                (Function.update aS (i - cnt) x) := by
          simp [partitionLoop, hM]
        have hm : mooreRun N M (x :: xs) (mooreOf false cur)
            = (((mooreRun N M xs (MooreState.secondSide (cur + 1))).1.1,
                x :: (mooreRun N M xs (MooreState.secondSide (cur + 1))).1.2),
                (mooreRun N M xs (MooreState.secondSide (cur + 1))).2) := by
          simp [mooreRun, mooreOf, mooreStep, hM]
        obtain ⟨e1, e2, e3, e4, e5⟩ :=
          ih false (cur + 1) (i + 1) cnt aF (Function.update aS (i - cnt) x) (by omega)
        simp only [mooreOf] at e1 e3 e4 e5
        rw [hstep, hm]
        refine ⟨e1, ?_, ?_, e4, ?_⟩
        · rw [e2]; simp [List.length_cons]; omega
        · rw [e3]
        · rw [e5]
          have hsub : i + 1 - cnt = (i - cnt) + 1 := by omega
          rw [hsub, extractArr_update_last]
          simp

/-- The two views of the machine state are inverse. -/
theorem mooreOf_pairOf (s : MooreState) :
    mooreOf (pairOfMoore s).1 (pairOfMoore s).2 = s := by
  cases s <;> rfl

/-- One `partition` burst in closed form: the enqueued outputs and the
carried state are exactly those of the spec's Moore machine. -/
theorem partitionBurst_eq {α : Type} [Inhabited α] (N M : Nat) (st : Bool × Nat)
    (b : List α) :
    (partitionBurst N M st b).1.1 = (mooreRun N M b (mooreOf st.1 st.2)).1.1 ∧
    (partitionBurst N M st b).1.2 = (mooreRun N M b (mooreOf st.1 st.2)).1.2 ∧
    (partitionBurst N M st b).2 = pairOfMoore (mooreRun N M b (mooreOf st.1 st.2)).2 := by
  obtain ⟨e1, e2, e3, e4, e5⟩ :=
    partitionLoop_spec N M b st.1 st.2 0 0 (fun _ => (default : α))
      (fun _ => (default : α)) (Nat.le_refl 0)
  refine ⟨?_, ?_, ?_⟩
  · show extractArr (partitionLoop N M b st.1 st.2 0 0 (fun _ => (default : α))
        (fun _ => (default : α))).aF
      (partitionLoop N M b st.1 st.2 0 0 (fun _ => (default : α))
        (fun _ => (default : α))).cnt = _
    rw [e4]
    simp [extractArr]
  · show extractArr (partitionLoop N M b st.1 st.2 0 0 (fun _ => (default : α))
        (fun _ => (default : α))).aS
      (b.length - (partitionLoop N M b st.1 st.2 0 0 (fun _ => (default : α))
        (fun _ => (default : α))).cnt) = _
    have hlen : b.length - (partitionLoop N M b st.1 st.2 0 0 (fun _ => (default : α))
        (fun _ => (default : α))).cnt
        = (partitionLoop N M b st.1 st.2 0 0 (fun _ => (default : α))
            (fun _ => (default : α))).i
          - (partitionLoop N M b st.1 st.2 0 0 (fun _ => (default : α))
              (fun _ => (default : α))).cnt := by
      rw [e2]
      omega
    rw [hlen, e5]
    simp [extractArr]
  · exact e1

/-- Running the Moore machine over a concatenation splits as
concatenation of outputs with the state threaded through. -/
theorem mooreRun_append {α : Type} (N M : Nat) (l1 l2 : List α) :
    ∀ s : MooreState,
      mooreRun N M (l1 ++ l2) s
        = (((mooreRun N M l1 s).1.1
              ++ (mooreRun N M l2 (mooreRun N M l1 s).2).1.1,
            (mooreRun N M l1 s).1.2
              ++ (mooreRun N M l2 (mooreRun N M l1 s).2).1.2),
            (mooreRun N M l2 (mooreRun N M l1 s).2).2) := by
  induction l1 with
  | nil => intro s; simp [mooreRun]
  | cons x xs ih =>
    intro s
    simp only [List.cons_append, mooreRun, List.append_eq]
    rw [ih (mooreStep N M s).1]
    cases hst : (mooreStep N M s).2 <;> simp [hst]

/-- The `partition` stage over any sequence of bursts equals the Moore
machine over the concatenated packet sequence: burst boundaries are
invisible. -/
theorem partitionBursts_eq {α : Type} [Inhabited α] (N M : Nat) :
    ∀ (bs : List (List α)) (st : Bool × Nat),
      partitionBursts N M bs st = (mooreRun N M bs.join (mooreOf st.1 st.2)).1 := by
  intro bs
  induction bs with
  | nil => intro st; simp [partitionBursts, List.join, mooreRun]
  | cons b bs ih =>
    intro st
    obtain ⟨c1, c2, c3⟩ := partitionBurst_eq N M st b
    simp only [partitionBursts, List.join_cons]
    rw [c1, c2, c3, ih, mooreOf_pairOf, mooreRun_append]

/-- Splitting a stream at even and odd positions, one cons at a time. -/
theorem evens_odds_cons {α : Type} :
    ∀ (t : List α) (x : α), evens (x :: t) = x :: odds t ∧ odds (x :: t) = evens t := by
  intro t
  induction t with
  | nil => intro x; exact ⟨rfl, rfl⟩
  | cons y ys ih =>
    intro x
    constructor
    · show evens (x :: y :: ys) = x :: odds (y :: ys)
      rw [show evens (x :: y :: ys) = x :: evens ys from rfl, (ih y).2]
    · show odds (x :: y :: ys) = evens (y :: ys)
      rw [show odds (x :: y :: ys) = y :: odds ys from rfl, (ih y).1]

/-- The Partition(1, 1) Moore machine strictly alternates, starting with
the first output. -/
theorem mooreRun_one_one {α : Type} :
    ∀ l : List α,
      (mooreRun 1 1 l (MooreState.firstSide 0)).1 = (evens l, odds l) ∧
      (mooreRun 1 1 l (MooreState.secondSide 0)).1 = (odds l, evens l) := by
  intro l
  induction l with
  | nil => exact ⟨rfl, rfl⟩
  | cons x xs ih =>
    constructor
    · have h1 : mooreRun 1 1 (x :: xs) (MooreState.firstSide 0)
          = ((x :: (mooreRun 1 1 xs (MooreState.secondSide 0)).1.1,
              (mooreRun 1 1 xs (MooreState.secondSide 0)).1.2),
              (mooreRun 1 1 xs (MooreState.secondSide 0)).2) := by
        simp [mooreRun, mooreStep]
      rw [h1]
      have h2 := ih.2
      rw [Prod.ext_iff] at h2
      simp only [h2.1, h2.2]
      simp [(evens_odds_cons xs x).1, (evens_odds_cons xs x).2]
    · have h1 : mooreRun 1 1 (x :: xs) (MooreState.secondSide 0)
          = (((mooreRun 1 1 xs (MooreState.firstSide 0)).1.1,
              x :: (mooreRun 1 1 xs (MooreState.firstSide 0)).1.2),
              (mooreRun 1 1 xs (MooreState.firstSide 0)).2) := by
        simp [mooreRun, mooreStep]
      rw [h1]
      have h2 := ih.1
      rw [Prod.ext_iff] at h2
      simp only [h2.1, h2.2]
      simp [(evens_odds_cons xs x).1, (evens_odds_cons xs x).2]

/-- Both Moore-machine outputs are subsequences of the input: per-output
packet order is input order. -/
theorem mooreRun_sublist {α : Type} (N M : Nat) :
    ∀ (l : List α) (s : MooreState),
      (mooreRun N M l s).1.1.Sublist l ∧ (mooreRun N M l s).1.2.Sublist l := by
  intro l
  induction l with
  | nil => intro s; constructor <;> simp [mooreRun]
  | cons x xs ih =>
    intro s
    obtain ⟨h1, h2⟩ := ih (mooreStep N M s).1
    simp only [mooreRun]
    cases hst : (mooreStep N M s).2 with
    | false =>
      refine ⟨?_, ?_⟩
      · rw [if_neg (by simp [hst])]
        exact h1.cons x
      · rw [if_neg (by simp [hst])]
        exact h2.cons₂ x
    | true =>
      refine ⟨?_, ?_⟩
      · rw [if_pos (by simp [hst])]
        exact h1.cons₂ x
      · rw [if_pos (by simp [hst])]
        exact h2.cons x

/-- C3: for positive `N` and `M`, the `partition` stage fed any sequence
of bursts behaves exactly as the spec's Moore machine on the
concatenated input (state FirstSide(0) initially, route by side,
increment per packet, flip and reset on reaching the side's bound); for
`N = M = 1` the two outputs are the even- and odd-position packets —
strict alternation starting with the first output; and each output
preserves the global input order (it is a subsequence of the input). -/
theorem partition_moore_behaviour {α : Type} [Inhabited α] (N M : Nat)
    (hN : 0 < N) (hM : 0 < M) (bursts : List (List α)) :
    partitionBursts N M bursts (true, 0)
        = (mooreRun N M bursts.join (MooreState.firstSide 0)).1 ∧
    partitionBursts 1 1 bursts (true, 0) = (evens bursts.join, odds bursts.join) ∧
    (partitionBursts N M bursts (true, 0)).1.Sublist bursts.join ∧
    (partitionBursts N M bursts (true, 0)).2.Sublist bursts.join := by
  have h1 := partitionBursts_eq N M bursts (true, 0)
  refine ⟨h1, ?_, ?_, ?_⟩
  · rw [partitionBursts_eq]
    exact (mooreRun_one_one bursts.join).1
  · rw [h1]
    exact (mooreRun_sublist N M bursts.join _).1
  · rw [h1]
    exact (mooreRun_sublist N M bursts.join _).2

/-- C3 witness: Partition(2, 1) over two bursts with a boundary inside a
side, and Partition(1, 1) alternation, at concrete packets. -/
theorem partition_moore_behaviour_witness :
    partitionBursts 2 1 [[10, 11], [12, 13, 14]] (true, 0)
        = (mooreRun 2 1 [[10, 11], [12, 13, 14]].join (MooreState.firstSide 0)).1 ∧
    partitionBursts 1 1 [[10, 11], [12, 13, 14]] (true, 0)
        = (evens [[10, 11], [12, 13, 14]].join, odds [[10, 11], [12, 13, 14]].join) ∧
    (partitionBursts 2 1 [[10, 11], [12, 13, 14]] (true, 0)).1.Sublist
        [[10, 11], [12, 13, 14]].join ∧
    (partitionBursts 2 1 [[10, 11], [12, 13, 14]] (true, 0)).2.Sublist
        [[10, 11], [12, 13, 14]].join :=
  partition_moore_behaviour 2 1 (by decide) (by decide) [[10, 11], [12, 13, 14]]

/-- C7: for every burst processed by the `separate` stage — scalar
callback `f`, or vector callback producing the boolean array `ttt` —
the packets whose callback result is true form, in original order, the
enqueued prefix of the true-output array; the false packets form, in
original order, the enqueued prefix of the false-output array; and the
two output counts sum to the burst size, so every input packet lands in
exactly one output. -/
theorem separate_burst_partitions {α : Type} [Inhabited α] (f : α → Bool) (l : List α)
    (ttt : List Bool) (hl : 0 < l.length) (hlen : ttt.length = l.length) :
    separateBurst (l.map fun x => (x, f x)) = (l.filter f, l.filter fun x => !f x) ∧
    (l.filter f).length + (l.filter fun x => !f x).length = l.length ∧
    separateBurst (l.zip ttt)
      = (((l.zip ttt).filter fun p => p.2).map Prod.fst,
          ((l.zip ttt).filter fun p => !p.2).map Prod.fst) ∧
    (((l.zip ttt).filter fun p => p.2).map Prod.fst).length
        + (((l.zip ttt).filter fun p => !p.2).map Prod.fst).length = l.length := by
  refine ⟨?_, filter_bool_length f l, separateBurst_eq _, ?_⟩
  · rw [separateBurst_eq, (map_pair_filter f l).1, (map_pair_filter f l).2]
  · simp only [List.length_map]
    rw [filter_bool_length (fun p => p.2) (l.zip ttt)]
    rw [List.length_zip, hlen]
    simp

/-- C7 witness: a concrete burst of four packets split by parity, via
both the scalar and the vector path. -/
theorem separate_burst_partitions_witness :
    separateBurst ([4, 7, 8, 9].map fun x => (x, x % 2 = 0))
        = ([4, 7, 8, 9].filter (fun x => x % 2 = 0),
            [4, 7, 8, 9].filter fun x => !(x % 2 = 0 : Bool)) ∧
    ([4, 7, 8, 9].filter (fun x => x % 2 = 0)).length
        + ([4, 7, 8, 9].filter fun x => !(x % 2 = 0 : Bool)).length = [4, 7, 8, 9].length ∧
    separateBurst ([4, 7, 8, 9].zip [true, false, true, false])
      = ((([4, 7, 8, 9].zip [true, false, true, false]).filter fun p => p.2).map Prod.fst,
          (([4, 7, 8, 9].zip [true, false, true, false]).filter fun p => !p.2).map Prod.fst) ∧
    ((([4, 7, 8, 9].zip [true, false, true, false]).filter fun p => p.2).map Prod.fst).length
        + ((([4, 7, 8, 9].zip [true, false, true, false]).filter
            fun p => !p.2).map Prod.fst).length = [4, 7, 8, 9].length :=
  separate_burst_partitions (fun x => x % 2 = 0) [4, 7, 8, 9]
    [true, false, true, false] (by decide) (by decide)

/-- C8 witness: consuming a never-opened handle errors, and the freshly
initialized system has a zero counter, zero open flows, and a passing
`checkSystem`. -/
theorem builder_open_flow_accounting_witness :
    (∃ e, applyOp (Op.opWriter 0) (initState 0) = .error e) ∧
    ((initState 0).openFlowsNumber = openCount (initState 0) ∧
      (checkSystem (initState 0) = .ok () ↔ openCount (initState 0) = 0)) :=
  ⟨builder_open_flow_accounting.1 (Op.opWriter 0) (initState 0) 0 (by decide) (by decide),
    builder_open_flow_accounting.2 [] 0 (initState 0) rfl⟩

end Flow
